import Mathlib

/-!
Verification development for the PDF → Excel field-extraction engine
(`heuristics.py` and `worker.py`).

The Python source is shallowly embedded: strings are Lean `String`s
(processed as `List Char`), the specific regular expressions used by the
source are hand-compiled into executable matchers with the same
backtracking semantics, and the worker's stateful page loop becomes a
recursive function over the page-index list producing an event trace.
External collaborators (PyMuPDF text extraction, the Excel writer,
`re.compile` for user-supplied patterns, the Qt signal plumbing) are
modelled as parameters, exactly at the interface the specification
assigns to them.

Modelling conventions, noted once here:
* Python `\s` / `str.strip()` whitespace is modelled as the six ASCII
  whitespace characters; `\d` as the ASCII decimal digits; `\w` (for the
  word-boundary assertion `\b`) as ASCII alphanumerics, the underscore
  and the Spanish accented letters used by this document template.
* `str.upper` / `str.lower` / `str.capitalize` / `str.title` are
  modelled on the ASCII letters plus `áéíóúñ`/`ÁÉÍÓÚÑ`, the only cased
  characters this template manipulates; all other characters are fixed.
* `str.splitlines` is modelled for the `\n` separator, the one produced
  by the PDF text extractor.
-/

namespace PdfExtract

/-- Whitespace class of Python `\s` and `str.strip()` (ASCII fragment). -/
def isSpacePy (c : Char) : Bool :=
  c = ' ' ∨ c = '\t' ∨ c = '\n' ∨ c = '\x0d' ∨ c = '\x0b' ∨ c = '\x0c'

/-- ASCII decimal digit, the model of `\d`. -/
def isDigitC (c : Char) : Bool := '0' ≤ c ∧ c ≤ '9'

/-- Word character for the `\b` assertion (`\w`): ASCII alphanumerics,
underscore, and the accented letters of the template's alphabet. -/
def isWordC (c : Char) : Bool :=
  ('A' ≤ c ∧ c ≤ 'Z') ∨ ('a' ≤ c ∧ c ≤ 'z') ∨ isDigitC c ∨ c = '_' ∨
  c = 'Á' ∨ c = 'É' ∨ c = 'Í' ∨ c = 'Ó' ∨ c = 'Ú' ∨ c = 'Ñ' ∨
  c = 'á' ∨ c = 'é' ∨ c = 'í' ∨ c = 'ó' ∨ c = 'ú' ∨ c = 'ñ'

/-- Uppercasing of one character (`str.upper`, restricted as noted above). -/
def toUpperChar (c : Char) : Char :=
  if 'a' ≤ c ∧ c ≤ 'z' then Char.ofNat (c.toNat - 32)
  else if c = 'á' then 'Á' else if c = 'é' then 'É' else if c = 'í' then 'Í'
  else if c = 'ó' then 'Ó' else if c = 'ú' then 'Ú' else if c = 'ñ' then 'Ñ'
  else c

/-- Lowercasing of one character (`str.lower`). -/
def toLowerChar (c : Char) : Char :=
  if 'A' ≤ c ∧ c ≤ 'Z' then Char.ofNat (c.toNat + 32)
  else if c = 'Á' then 'á' else if c = 'É' then 'é' else if c = 'Í' then 'í'
  else if c = 'Ó' then 'ó' else if c = 'Ú' then 'ú' else if c = 'Ñ' then 'ñ'
  else c

/-- Python `s.upper()`. -/
def toUpperPy (s : String) : String := String.mk (s.data.map toUpperChar)

/-- Python `s.lower()`. -/
def toLowerPy (s : String) : String := String.mk (s.data.map toLowerChar)

/-- Strip characters satisfying `p` from both ends of a character list. -/
def stripBoth (p : Char → Bool) (cs : List Char) : List Char :=
  ((cs.dropWhile p).reverse.dropWhile p).reverse

/-- Python `s.strip()`. -/
def pyStrip (s : String) : String := String.mk (stripBoth isSpacePy s.data)

theorem length_dropWhile_le' (p : α → Bool) : ∀ l : List α, (l.dropWhile p).length ≤ l.length := by
  intro l
  induction l with
  | nil => simp [List.dropWhile]
  | cons a l ih =>
    by_cases h : p a
    · simp [List.dropWhile, h]; omega
    · simp [List.dropWhile, h]

/-- Python `re.sub(r"\s+", " ", ·)` worker: `prevWs` records whether the
previous character already belonged to a (replaced) whitespace run. -/
def collapseWsAllGo (prevWs : Bool) : List Char → List Char
  | [] => []
  | c :: rest =>
    if isSpacePy c then
      if prevWs then collapseWsAllGo true rest
      else ' ' :: collapseWsAllGo true rest
    else c :: collapseWsAllGo false rest

/-- Python `re.sub(r"\s+", " ", ·)`: replace every maximal whitespace run by one space. -/
def collapseWsAll (cs : List Char) : List Char := collapseWsAllGo false cs

mutual
/-- Python `re.sub(r"\s{2,}", " ", ·)` worker: outside a whitespace run. -/
def collapseWs2Go : List Char → List Char
  | [] => []
  | c :: rest =>
    if isSpacePy c then
      match rest with
      | [] => [c]
      | c2 :: rest2 =>
        if isSpacePy c2 then ' ' :: collapseWs2Skip rest2
        else c :: c2 :: collapseWs2Go rest2
    else c :: collapseWs2Go rest

/-- Python `re.sub(r"\s{2,}", " ", ·)` worker: inside a run already replaced. -/
def collapseWs2Skip : List Char → List Char
  | [] => []
  | c :: rest =>
    if isSpacePy c then collapseWs2Skip rest else c :: collapseWs2Go rest
end

/-- Python `re.sub(r"\s{2,}", " ", ·)`: replace every whitespace run of length ≥ 2
by one space; a lone whitespace character is left unchanged. -/
def collapseWs2 (cs : List Char) : List Char := collapseWs2Go cs

/-- Python `normalize_spaces` (`heuristics.py` line 4): collapse whitespace runs
to single spaces, then strip. -/
def normalize_spaces (s : String) : String :=
  String.mk (stripBoth isSpacePy (collapseWsAll s.data))

/-- Python `s.split()` worker with the current word accumulated in reverse. -/
def wsSplitGo (acc : List Char) : List Char → List (List Char)
  | [] => if acc = [] then [] else [acc.reverse]
  | c :: rest =>
    if isSpacePy c then
      if acc = [] then wsSplitGo [] rest else acc.reverse :: wsSplitGo [] rest
    else wsSplitGo (c :: acc) rest

/-- Python `s.split()` over a character list: whitespace-run split, no empties. -/
def wsSplit (cs : List Char) : List (List Char) := wsSplitGo [] cs

/-- Python `s.split()`. -/
def pySplitWs (s : String) : List String := (wsSplit s.data).map String.mk

/-- Python `str.splitlines` auxiliary: split on `'\n'`, keeping a (possibly
empty) final segment. -/
def splitLinesAux (acc : List Char) : List Char → List (List Char)
  | [] => [acc.reverse]
  | c :: rest =>
    if c = '\n' then acc.reverse :: splitLinesAux [] rest
    else splitLinesAux (c :: acc) rest

/-- Python `s.splitlines()` (for the `\n` separator): `""` gives `[]`, and a
trailing newline does not produce a trailing empty line. -/
def pySplitlines (s : String) : List String :=
  match s.data with
  | [] => []
  | cs =>
    let ps := splitLinesAux [] cs
    (if ps.getLast? = some [] then ps.dropLast else ps).map String.mk

/-- Python `sep.join l`. -/
def joinSep (sep : String) : List String → String
  | [] => ""
  | [x] => x
  | x :: xs => x ++ sep ++ joinSep sep xs

/-- Python `w.capitalize()`: first character uppercased, the rest lowercased. -/
def pyCapitalize (w : String) : String :=
  match w.data with
  | [] => ""
  | c :: r => String.mk (toUpperChar c :: r.map toLowerChar)

/-- Python `s.title()`: a letter starts uppercase after a non-letter, the rest
of each letter run is lowercased. -/
def pyTitleGo : Bool → List Char → List Char
  | _, [] => []
  | prev, c :: rest =>
    let isA := ('A' ≤ c ∧ c ≤ 'Z') ∨ ('a' ≤ c ∧ c ≤ 'z') ∨
      c ∈ ['Á', 'É', 'Í', 'Ó', 'Ú', 'Ñ', 'á', 'é', 'í', 'ó', 'ú', 'ñ']
    (if isA then (if prev then toLowerChar c else toUpperChar c) else c) ::
      pyTitleGo isA rest

/-- Python `s.title()`. -/
def pyTitle (s : String) : String := String.mk (pyTitleGo false s.data)

/-- Python `pre.isPrefixOf l` driven substring containment: `needle in hay`. -/
def containsSub (needle hay : String) : Bool :=
  (hay.data.tails.any (fun t => needle.data.isPrefixOf t))

/-- First index of `needle` in `hay` (`str.find`, as an `Option`). -/
def findSub (needle : List Char) : List Char → Option Nat
  | [] => if needle = [] then some 0 else none
  | c :: rest =>
    if needle.isPrefixOf (c :: rest) then some 0
    else (findSub needle rest).map (· + 1)

/-- Python `pre.startswith`. -/
def strStartsWith (s pre : String) : Bool := pre.data.isPrefixOf s.data

/-- Scan a list left to right, returning the first `some` (the shape of
all the `for … return` loops in the source). -/
def scanList (f : α → Option β) : List α → Option β
  | [] => none
  | a :: rest => (f a).orElse fun _ => scanList f rest

/-- The index list `[a, a+1, …, b-1]` (Python `range(a, b)`). -/
def rangeList (a b : Nat) : List Nat := List.range' a (b - a)

/-- Python `[hi, hi-1, …, lo]` (used for greedy-first backtracking orders). -/
def countdown (hi lo : Nat) : List Nat := (List.range' lo (hi + 1 - lo)).reverse

/-! ### Elementary regex steps

The source's regular expressions are compiled by hand into these
deterministic steps plus, where the pattern genuinely backtracks
(optional dots, `\s+` before a class that itself contains a space,
greedy counted classes), explicit candidate lists tried in the engine's
preference order. -/

/-- Consume one character satisfying `ok`, or fail. -/
def eatOne (ok : Char → Bool) : List Char → Option (List Char)
  | [] => none
  | c :: rest => if ok c then some rest else none

/-- Consume an exact literal character sequence. -/
def eatLit : List Char → List Char → Option (List Char)
  | [], cs => some cs
  | _ :: _, [] => none
  | p :: ps, c :: cs => if c = p then eatLit ps cs else none

/-- Python `\s+` when followed by a non-whitespace literal: consume a maximal,
non-empty whitespace run (backtracking to a shorter run can never help
there, so the greedy consumption is exact). -/
def eatWs1 (cs : List Char) : Option (List Char) :=
  let r := (cs.takeWhile isSpacePy).length
  if r = 0 then none else some (cs.drop r)

/-- Consume exactly `n` digits, returning them. -/
def eatDigits : Nat → List Char → Option (List Char × List Char)
  | 0, cs => some ([], cs)
  | _ + 1, [] => none
  | n + 1, c :: cs =>
    if isDigitC c then (eatDigits n cs).map (fun p => (c :: p.1, p.2)) else none

/-! ### `h_find_fecha` (`heuristics.py` lines 9–20) -/

/-- Matcher for `(\d{2})\s+(\d{2})\s+(\d{4})` anchored at the head of
the list; returns the three groups and the number of characters
consumed. -/
def matchTripleAt (cs : List Char) : Option ((String × String × String) × Nat) := do
  let (d, r1) ← eatDigits 2 cs
  let r2 ← eatWs1 r1
  let (mth, r3) ← eatDigits 2 r2
  let r4 ← eatWs1 r3
  let (y, r5) ← eatDigits 4 r4
  some ((String.mk d, String.mk mth, String.mk y), cs.length - r5.length)

/-- Matcher for `D[ÍI]A\s+MES\s+A[ÑN]O\s+(\d{2})\s+(\d{2})\s+(\d{4})`
anchored at the head of the list. -/
def matchFechaLabelAt (cs : List Char) : Option (String × String × String) := do
  let r1 ← eatOne (· = 'D') cs
  let r2 ← eatOne (fun c => c = 'Í' ∨ c = 'I') r1
  let r3 ← eatOne (· = 'A') r2
  let r4 ← eatWs1 r3
  let r5 ← eatLit ['M', 'E', 'S'] r4
  let r6 ← eatWs1 r5
  let r7 ← eatOne (· = 'A') r6
  let r8 ← eatOne (fun c => c = 'Ñ' ∨ c = 'N') r7
  let r9 ← eatOne (· = 'O') r8
  let r10 ← eatWs1 r9
  let (g, _) ← matchTripleAt r10
  some g

/-- Python `re.search` of the labelled date pattern: leftmost match. -/
def findLabelFrom : List Char → Option (String × String × String)
  | [] => none
  | c :: rest => (matchFechaLabelAt (c :: rest)).orElse fun _ => findLabelFrom rest

/-- Leftmost `dd mm yyyy` triple at or after absolute position `pos`
(the list argument is the corresponding suffix of the page text);
returns the absolute start, the groups and the match length. -/
def findTripleFrom : List Char → Nat → Option (Nat × (String × String × String) × Nat)
  | [], _ => none
  | c :: rest, pos =>
    match matchTripleAt (c :: rest) with
    | some (g, len) => some (pos, g, len)
    | none => findTripleFrom rest (pos + 1)

/-- The `re.finditer` fallback loop of `h_find_fecha`: return the first
triple (in non-overlapping scan order) whose preceding 60 characters do
not contain `"Impreso el"`; the fuel is an upper bound on the number of
iterations (each iteration consumes at least the 10-character match). -/
def fechaLoop (text : List Char) : Nat → List Char → Nat → String
  | 0, _, _ => ""
  | fuel + 1, suffix, pos =>
    match findTripleFrom suffix pos with
    | none => ""
    | some (s, (d, mth, y), len) =>
      let pre := (text.take s).drop (s - 60)
      if containsSub "Impreso el" (String.mk pre) then
        fechaLoop text fuel (suffix.drop (s + len - pos)) (s + len)
      else y ++ "-" ++ mth ++ "-" ++ d

/-- Python `h_find_fecha`: the labelled `DÍA MES AÑO` date if present, else the
first bare `dd mm yyyy` triple not preceded (within 60 characters) by
the `"Impreso el"` footer mark, reformatted `YYYY-MM-DD`; `""` if none. -/
def h_find_fecha (text : String) : String :=
  match findLabelFrom text.data with
  | some (d, mth, y) => y ++ "-" ++ mth ++ "-" ++ d
  | none => fechaLoop text.data (text.data.length + 1) text.data 0

/-! ### `h_find_nombre_y_doc` (`heuristics.py` lines 28–156) -/

/-- The four accepted start-header variants of the personal-data block. -/
def startMarkers : List String :=
  ["DATOS DEL TRABAJADOR / ASPIRANTE",
   "DATOS DEL TRABAJADOR",
   "DATOS DEL TRABAJADOR/ASPIRANTE",
   "DATOS DEL TRABAJADOR O ASPIRANTE"]

/-- The stop-header keywords ending the personal-data block. -/
def stopMarkers : List String :=
  ["CONCEPTO DE APTITUD", "CONCEPTO MÉDICO OCUPACIONAL", "CONCEPTO MEDICO OCUPACIONAL",
   "CARGO", "EPS", "ARL", "AFP", "NIT", "DIRECCIÓN", "DIRECCION",
   "EXÁMENES", "EXAMENES", "OBSERVACIONES", "RECOMENDACIONES"]

/-- The deny-list of job-title words (`cargo_tokens`). -/
def cargoTokens : List String :=
  ["GENERADOR", "GENERADORA", "OPERARIO", "OPERARIA", "AUXILIAR", "ASEO",
   "OFICIOS", "VARIOS", "CONDUCTOR", "VENDEDOR", "VENDEDORA", "MENSAJERO",
   "JEFE", "SUPERVISOR", "SUPERVISORA", "APRENDIZ", "COORDINADOR", "COORDINADORA",
   "PROFESIONAL", "TECNICO", "TÉCNICO", "AYUDANTE", "MANTENIMIENTO"]

/-- The inner `clean`: `re.sub(r"\s{2,}", " ", s).strip()`. -/
def clean (s : String) : String := String.mk (stripBoth isSpacePy (collapseWs2 s.data))

/-- The per-line preprocessing of `h_find_nombre_y_doc`
(`re.sub(r"\s{2,}", " ", l.strip())`). -/
def lineClean (s : String) : String := String.mk (collapseWs2 (stripBoth isSpacePy s.data))

/-- The inner `titlecase`: `" ".join(w.capitalize() for w in s.split())`. -/
def titlecase (s : String) : String := joinSep " " ((pySplitWs s).map pyCapitalize)

/-- Character class `[A-ZÁÉÍÓÚÑ ]` of the name patterns. -/
def isNameChar (c : Char) : Bool :=
  ('A' ≤ c ∧ c ≤ 'Z') ∨ c = 'Á' ∨ c = 'É' ∨ c = 'Í' ∨ c = 'Ó' ∨ c = 'Ú' ∨ c = 'Ñ' ∨ c = ' '

/-- Python `looks_like_upper_name` (`heuristics.py` lines 74–83): uppercased,
at least 6 characters, only `[A-ZÁÉÍÓÚÑ ]`, no deny-listed token of
length > 2, and at least two tokens of length > 1. -/
def looks_like_upper_name (s : String) : Bool :=
  let su := toUpperPy s
  if su.length < 6 then false
  else if !(su.data.all isNameChar) then false
  else if (pySplitWs su).any (fun t => decide (2 < t.length) && cargoTokens.contains t) then false
  else decide (2 ≤ ((pySplitWs su).filter (fun t => decide (1 < t.length))).length)

/-- Word-boundary assertion `\b` between an optional previous character
and an optional next character. -/
def wordBoundary (prev nxt : Option Char) : Bool :=
  (match prev with | some c => isWordC c | none => false) ≠
  (match nxt with | some c => isWordC c | none => false)

/-- Character class `[0-9A-Z.\- ]` of the document-number group, with
`a-z` added under `re.I`. -/
def docNumChar (ci : Bool) (c : Char) : Bool :=
  isDigitC c ∨ ('A' ≤ c ∧ c ≤ 'Z') ∨ (ci ∧ 'a' ≤ c ∧ c ≤ 'z') ∨
  c = '.' ∨ c = '-' ∨ c = ' '

/-- Match one pattern letter, optionally case-insensitively. -/
def matchLetter (ci : Bool) (pat c : Char) : Bool :=
  if ci then toUpperChar c = pat else c = pat

/-- Candidates for the alternation `(C\.?C\.?|TI|CE|PT)`, as
(matched text, rest) pairs in the regex engine's backtracking order:
the `C\.?C\.?` alternative first with its optional dots tried
greedily, then `TI`, `CE`, `PT`. -/
def altCandidates (ci : Bool) (cs : List Char) : List (String × List Char) :=
  let lit2 := fun (a b : Char) =>
    match cs with
    | c1 :: c2 :: rest =>
      if matchLetter ci a c1 ∧ matchLetter ci b c2 then
        [(String.mk [c1, c2], rest)] else []
    | _ => []
  let ccCands :=
    match cs with
    | c1 :: rest1 =>
      if matchLetter ci 'C' c1 then
        (match rest1 with
         | '.' :: rest2 =>
           (match rest2 with
            | c3 :: rest3 =>
              if matchLetter ci 'C' c3 then
                (match rest3 with
                 | '.' :: rest4 => [(String.mk [c1, '.', c3, '.'], rest4),
                                    (String.mk [c1, '.', c3], rest3)]
                 | _ => [(String.mk [c1, '.', c3], rest3)])
              else []
            | [] => []) ++
           (match rest1 with
            | c3 :: rest3 =>
              if matchLetter ci 'C' c3 then
                (match rest3 with
                 | '.' :: rest4 => [(String.mk [c1, c3, '.'], rest4),
                                    (String.mk [c1, c3], rest3)]
                 | _ => [(String.mk [c1, c3], rest3)])
              else []
            | [] => [])
         | c2 :: rest2 =>
           if matchLetter ci 'C' c2 then
             (match rest2 with
              | '.' :: rest3 => [(String.mk [c1, c2, '.'], rest3),
                                 (String.mk [c1, c2], rest2)]
              | _ => [(String.mk [c1, c2], rest2)])
           else []
         | [] => [])
      else []
    | [] => []
  ccCands ++ lit2 'T' 'I' ++ lit2 'C' 'E' ++ lit2 'P' 'T'

/-- Attempt `\b(C\.?C\.?|TI|CE|PT)\s+([0-9A-Z.\- ]{5,})\b` (`doc_re`)
anchored at the head of `cs`, with `prev` the character before the
anchor; backtracks over the alternation, the `\s+` run and the greedy
counted group exactly as the engine does. -/
def docMatchAt (ci : Bool) (prev : Option Char) (cs : List Char) : Option (String × String) :=
  if wordBoundary prev cs.head? then
    scanList (fun (pr : String × List Char) =>
      let rest1 := pr.2
      let r := (rest1.takeWhile isSpacePy).length
      scanList (fun (k : Nat) =>
        let rest2 := rest1.drop k
        let g := (rest2.takeWhile (docNumChar ci)).length
        scanList (fun (n : Nat) =>
          let g2 := rest2.take n
          if wordBoundary g2.getLast? (rest2.drop n).head? then
            some (pr.1, String.mk g2)
          else none) (countdown g 5)) (countdown r 1)) (altCandidates ci cs)
  else none

/-- Python `doc_re.search` on one line: leftmost match wins. -/
def docSearchAux (ci : Bool) : Option Char → List Char → Option (String × String)
  | _, [] => none
  | prev, c :: rest =>
    (docMatchAt ci prev (c :: rest)).orElse fun _ => docSearchAux ci (some c) rest

/-- Python `doc_re.search` (`heuristics.py` line 58, compiled with `re.I`
when `ci` is true). -/
def docSearch (ci : Bool) (s : String) : Option (String × String) :=
  docSearchAux ci none s.data

/-- Normalized document value:
`f"{m.group(1).upper().replace('.', '')} {clean(m.group(2))}"`. -/
def fmtDoc (g1 g2 : String) : String :=
  String.mk ((toUpperPy g1).data.filter (· ≠ '.')) ++ " " ++ clean g2

/-- Python `find_doc_near` (`heuristics.py` lines 105–112): search the
document pattern on the lines at offsets `0, ±1, …, ±6` from
`idxBase`, minus side first, skipping out-of-range indices. -/
def find_doc_near (block : List String) (idxBase : Nat) : String :=
  match scanList (fun (off : Nat) =>
    scanList (fun (j : Int) =>
      if 0 ≤ j ∧ j < (block.length : Int) then
        (docSearch true (block.getD j.toNat "")).map (fun g => fmtDoc g.1 g.2)
      else none) [(idxBase : Int) - off, (idxBase : Int) + off]) (rangeList 0 7) with
  | some d => d
  | none => ""

/-- Marker containment test for the block start. -/
def isStartLine (ln : String) : Bool :=
  startMarkers.any (fun m => containsSub m (toUpperPy ln))

/-- Marker containment test for the block end. -/
def isStopLine (ln : String) : Bool :=
  stopMarkers.any (fun m => containsSub m (toUpperPy ln))

/-- First index (from `n`) of a line satisfying `p`. -/
def findIdxFrom (p : String → Bool) : List String → Nat → Option Nat
  | [], _ => none
  | l :: rest, n => if p l then some n else findIdxFrom p rest (n + 1)

/-- Index of the first line containing a start marker. -/
def findStartIdx (ls : List String) : Option Nat := findIdxFrom isStartLine ls 0

/-- Index of the first line after `s` containing a stop marker, or the
line count if none. -/
def findEndIdx (ls : List String) (s : Nat) : Nat :=
  match findIdxFrom isStopLine (ls.drop (s + 1)) 0 with
  | some k => s + 1 + k
  | none => ls.length

/-- The personal-data block `lines[start:end]`. -/
def blockOf (ls : List String) (s : Nat) : List String :=
  (ls.drop s).take (findEndIdx ls s - s)

/-- Strategy A (`heuristics.py` lines 114–122): for each line holding
the literal label, scan the next 7 lines for the first non-empty one
passing the name predicate; title-case it and look for a nearby
document. -/
def strategyA (block : List String) : Option (String × String) :=
  scanList (fun (i : Nat) =>
    if containsSub "APELLIDOS Y NOMBRES" (toUpperPy (block.getD i "")) then
      scanList (fun (k : Nat) =>
        let cand := pyStrip (block.getD k "")
        if cand ≠ "" ∧ looks_like_upper_name cand then
          some (titlecase cand, find_doc_near block k)
        else none) (rangeList (i + 1) (min (i + 8) block.length))
    else none) (rangeList 0 block.length)

/-- Matcher for strategy B's combined (case-sensitive) pattern
`^([A-ZÁÉÍÓÚÑ ]{6,}).*?\b(C\.?C\.?|TI|CE|PT)\s+([0-9A-Z.\- ]{5,})`:
greedy name group longest-first, lazy gap shortest-first. -/
def matchBLine (s : String) : Option (String × String × String) :=
  let cs := s.data
  let n1 := (cs.takeWhile isNameChar).length
  scanList (fun (a : Nat) =>
    let g1 := cs.take a
    let rest := cs.drop a
    scanList (fun (gap : Nat) =>
      if (rest.take gap).all (· ≠ '\n') then
        let lastC := if gap = 0 then g1.getLast? else (rest.take gap).getLast?
        let rest2 := rest.drop gap
        if wordBoundary lastC rest2.head? then
          scanList (fun (pr : String × List Char) =>
            let rest3 := pr.2
            let r := (rest3.takeWhile isSpacePy).length
            scanList (fun (k : Nat) =>
              let rest4 := rest3.drop k
              let g := (rest4.takeWhile (docNumChar false)).length
              if 5 ≤ g then some (String.mk g1, pr.1, String.mk (rest4.take g))
              else none) (countdown r 1)) (altCandidates false rest2)
        else none
      else none) (rangeList 0 (rest.length + 1))) (countdown n1 6)

/-- Strategy B (`heuristics.py` lines 124–130): first line whose
combined match also passes the name predicate on its name group. -/
def strategyB (block : List String) : Option (String × String) :=
  scanList (fun (ln : String) =>
    match matchBLine ln with
    | some (g1, g2, g3) =>
      if looks_like_upper_name g1 then
        some (titlecase (clean g1), fmtDoc g2 g3)
      else none
    | none => none) block

/-- Strategy C's backward name search (`for up in range(1, 7)` with a
break below index 0). -/
def upSearch (block : List String) (i : Nat) : Option String :=
  scanList (fun (up : Nat) =>
    if up ≤ i then
      let cand := pyStrip (block.getD (i - up) "")
      if looks_like_upper_name cand then some (titlecase (clean cand)) else none
    else none) (rangeList 1 7)

/-- Strategy C's forward name search (`for dn in range(1, 5)` with a
break past the end). -/
def downSearch (block : List String) (i : Nat) : Option String :=
  scanList (fun (dn : Nat) =>
    if i + dn < block.length then
      let cand := pyStrip (block.getD (i + dn) "")
      if looks_like_upper_name cand then some (titlecase (clean cand)) else none
    else none) (rangeList 1 5)

/-- Strategy C (`heuristics.py` lines 132–153): anchor on the first
line with a document match; search up to 6 lines backward then 4
forward for a plausible name; with none, return the document alone. -/
def strategyC (block : List String) : Option (String × String) :=
  scanList (fun (i : Nat) =>
    match docSearch true (block.getD i "") with
    | none => none
    | some g =>
      let doc := fmtDoc g.1 g.2
      match upSearch block i with
      | some nm => some (nm, doc)
      | none =>
        match downSearch block i with
        | some nm => some (nm, doc)
        | none => some ("", doc)) (rangeList 0 block.length)

/-- The in-block part of `h_find_nombre_y_doc`: strategies A, B, C in
order, else `("", "")`. -/
def fromBlock (block : List String) : String × String :=
  if block = [] then ("", "")
  else
    match strategyA block with
    | some r => r
    | none =>
      match strategyB block with
      | some r => r
      | none =>
        match strategyC block with
        | some r => r
        | none => ("", "")

/-- Python `h_find_nombre_y_doc` on the preprocessed line list: delimit the
personal-data block, then extract from it alone. -/
def hFindLines (ls : List String) : String × String :=
  match findStartIdx ls with
  | none => ("", "")
  | some s => fromBlock (blockOf ls s)

/-- The preprocessed line list (`text.splitlines()` with intra-line
whitespace runs collapsed). -/
def linesOf (text : String) : List String :=
  (pySplitlines text).map lineClean

/-- Python `h_find_nombre_y_doc`: extract (name, document) exclusively from
the `DATOS DEL TRABAJADOR` block. -/
def h_find_nombre_y_doc (text : String) : String × String :=
  hFindLines (linesOf text)

/-! ### The remaining heuristic extractors (`heuristics.py` lines 23–233) -/

/-- One case-insensitive pattern letter (`re.I` on the template's alphabet). -/
def eatCi : List Char → List Char → Option (List Char)
  | [], cs => some cs
  | _ :: _, [] => none
  | p :: ps, c :: cs => if toUpperChar c = p then eatCi ps cs else none

/-- Tail of the exam-type pattern after `EVALUACI[ÓO]`:
`N?\s*M[ÉE]DICO\s*OCUPACIONAL`, with the optional `N` tried greedily. -/
def tipoTail2 (r : List Char) : Option (List Char) := do
  let a := r.dropWhile isSpacePy
  let b ← eatOne (fun c => toUpperChar c = 'M') a
  let b2 ← eatOne (fun c => toUpperChar c = 'É' ∨ toUpperChar c = 'E') b
  let b3 ← eatCi ['D', 'I', 'C', 'O'] b2
  let b4 := b3.dropWhile isSpacePy
  eatCi ['O', 'C', 'U', 'P', 'A', 'C', 'I', 'O', 'N', 'A', 'L'] b4

/-- Matcher for `(EVALUACI[ÓO]N?\s*M[ÉE]DICO\s*OCUPACIONAL.*)$` with
`re.I | re.M`, anchored at the head; returns the whole group (through
the end of the line). -/
def matchTipoAt (cs : List Char) : Option (List Char) := do
  let r1 ← eatCi ['E', 'V', 'A', 'L', 'U', 'A', 'C', 'I'] cs
  let r2 ← eatOne (fun c => toUpperChar c = 'Ó' ∨ toUpperChar c = 'O') r1
  let r3 ← (do
    let a ← eatOne (fun c => toUpperChar c = 'N') r2
    tipoTail2 a) <|> tipoTail2 r2
  let lineRest := r3.takeWhile (· ≠ '\n')
  some (cs.take (cs.length - r3.length + lineRest.length))

/-- Python `re.search` scan for the exam-type pattern. -/
def tipoSearch : List Char → Option (List Char)
  | [] => none
  | c :: rest => (matchTipoAt (c :: rest)).orElse fun _ => tipoSearch rest

/-- Python `h_find_tipo_examen` (`heuristics.py` lines 23–25). -/
def h_find_tipo_examen (text : String) : String :=
  match tipoSearch text.data with
  | some g => normalize_spaces (String.mk g)
  | none => ""

/-- Character class `[A-Za-zÁÉÍÓÚÑ ]` of the first job-title pattern. -/
def isCargoChar (c : Char) : Bool :=
  ('A' ≤ c ∧ c ≤ 'Z') ∨ ('a' ≤ c ∧ c ≤ 'z') ∨
  c = 'Á' ∨ c = 'É' ∨ c = 'Í' ∨ c = 'Ó' ∨ c = 'Ú' ∨ c = 'Ñ' ∨ c = ' '

/-- Python `\s*\n(GROUP)` step: given the whitespace run `R` after the literal
and the `tail` after it, backtrack over which `'\n'` of `R` the literal
`\n` consumes (latest first), the group being the maximal class run
right after it; succeeds once the group reaches `lo` characters. -/
def wsNewlineGroup (grpChar : Char → Bool) (lo : Nat) (R tail : List Char) :
    Option (List Char) :=
  scanList (fun (t : Nat) =>
    if R.getD t ' ' = '\n' then
      let g := (R.drop (t + 1) ++ tail).takeWhile grpChar
      if lo ≤ g.length then some g else none
    else none) (countdown (R.length - 1) 0)

/-- Matcher for `^Cargo\s*\n([A-Za-zÁÉÍÓÚÑ ]{3,})` anchored at a line
start. -/
def cargoP1At (cs : List Char) : Option (List Char) := do
  let r ← eatLit ['C', 'a', 'r', 'g', 'o'] cs
  let R := r.takeWhile isSpacePy
  wsNewlineGroup isCargoChar 3 R (r.drop R.length)

/-- Scan the first job-title pattern over line starts (`re.M` makes
`^` match at the string start and right after each newline); the flag
records whether the current position is a line start. -/
def cargoScan1Go : Bool → List Char → Option (List Char)
  | _, [] => none
  | atStart, c :: rest =>
    (if atStart then cargoP1At (c :: rest) else none).orElse fun _ =>
      cargoScan1Go (c = '\n') rest

/-- Python `re.search` of the first job-title pattern. -/
def cargoScan1 (cs : List Char) : Option (List Char) := cargoScan1Go true cs

/-- Matcher for `\n([A-ZÁÉÍÓÚÑ ]{3,})\nNIT\b` anchored at the head. -/
def cargoP2At (cs : List Char) : Option (List Char) := do
  let r ← eatOne (· = '\n') cs
  let g := r.takeWhile isNameChar
  if g.length < 3 then none
  else do
    let r2 := r.drop g.length
    let r3 ← eatOne (· = '\n') r2
    let r4 ← eatLit ['N', 'I', 'T'] r3
    if wordBoundary (some 'T') r4.head? then some g else none

/-- Python `re.search` scan for the second job-title pattern. -/
def cargoScan2 : List Char → Option (List Char)
  | [] => none
  | c :: rest => (cargoP2At (c :: rest)).orElse fun _ => cargoScan2 rest

/-- Python `h_find_cargo` (`heuristics.py` lines 159–167). -/
def h_find_cargo (text : String) : String :=
  match cargoScan1 text.data with
  | some g => pyTitle (normalize_spaces (String.mk g))
  | none =>
    match cargoScan2 text.data with
    | some g => pyTitle (normalize_spaces (String.mk g))
    | none => ""

/-- Character class `[A-ZÁÉÍÓÚÑ .\-]` of the fitness-concept pattern. -/
def isConceptoChar (c : Char) : Bool :=
  ('A' ≤ c ∧ c ≤ 'Z') ∨ c = 'Á' ∨ c = 'É' ∨ c = 'Í' ∨ c = 'Ó' ∨ c = 'Ú' ∨ c = 'Ñ' ∨
  c = ' ' ∨ c = '.' ∨ c = '-'

/-- Matcher for `CONCEPTO DE APTITUD OCUPACIONAL\s*\n([A-ZÁÉÍÓÚÑ .\-]+)`
anchored at the head. -/
def conceptoAt (cs : List Char) : Option (List Char) := do
  let r ← eatLit "CONCEPTO DE APTITUD OCUPACIONAL".data cs
  let R := r.takeWhile isSpacePy
  wsNewlineGroup isConceptoChar 1 R (r.drop R.length)

/-- Python `re.search` scan for the fitness-concept pattern. -/
def conceptoScan : List Char → Option (List Char)
  | [] => none
  | c :: rest => (conceptoAt (c :: rest)).orElse fun _ => conceptoScan rest

/-- Python `h_find_concepto` (`heuristics.py` lines 170–172). -/
def h_find_concepto (text : String) : String :=
  match conceptoScan text.data with
  | some g => pyTitle (normalize_spaces (String.mk g))
  | none => ""

/-- Python `s.strip(" -•\t")`. -/
def stripDecoration (s : String) : String :=
  String.mk (stripBoth (fun c => c = ' ' ∨ c = '-' ∨ c = '•' ∨ c = '\t') s.data)

/-- Python `h_find_block` (`heuristics.py` lines 175–186): 1200 characters
after the start key, truncated at each stop key, line-flattened with
`"; "`. -/
def h_find_block (text startKey : String) (stopKeys : List String) : String :=
  match findSub startKey.data text.data with
  | none => ""
  | some idx =>
    let sub0 := (text.data.drop (idx + startKey.length)).take 1200
    let sub := stopKeys.foldl (fun sub sk =>
      match findSub sk.data sub with
      | some cut => sub.take cut
      | none => sub) sub0
    let lns := (pySplitlines (String.mk sub)).map
      (fun x => normalize_spaces (stripDecoration x))
    joinSep "; " (lns.filter (· ≠ ""))

/-- Python `h_find_examenes` (`heuristics.py` lines 189–200). -/
def h_find_examenes (text : String) : String :=
  h_find_block text "El concepto de Aptitud se definió a part"
    ["RECOMENDACIONES MÉDICAS", "RECOMENDACIONES OCUPACIONALES",
     "HABITOS Y ESTILO", "OTRAS OBSERVACIONES", "Consentimiento informado"]

/-- Python `h_find_reco_medicas` (`heuristics.py` lines 203–213). -/
def h_find_reco_medicas (text : String) : String :=
  h_find_block text "RECOMENDACIONES MÉDICAS"
    ["RECOMENDACIONES OCUPACIONALES", "HABITOS Y ESTILO",
     "OTRAS OBSERVACIONES", "Consentimiento informado"]

/-- Python `h_find_reco_ocup` (`heuristics.py` lines 216–225). -/
def h_find_reco_ocup (text : String) : String :=
  h_find_block text "RECOMENDACIONES OCUPACIONALES"
    ["HABITOS Y ESTILO", "OTRAS OBSERVACIONES", "Consentimiento informado"]

/-- Python `h_find_habitos` (`heuristics.py` lines 228–233). -/
def h_find_habitos (text : String) : String :=
  h_find_block text "HABITOS Y ESTILO DE VIDA SALUDABLES"
    ["OTRAS OBSERVACIONES", "Consentimiento informado"]

/-! ### The worker (`worker.py`)

`ExtractWorker.run` is modelled as a pure function of its environment:
the document is the list of its pages' extracted texts (`text_of` is a
black box per the spec), `re.compile` for user-supplied patterns is an
abstract `compile` function (a failure to compile is `none`), the
shared cancellation flag is the predicate `cancel idx` — its value when
polled before page `idx` — and the emitted Qt signals become an ordered
event trace.  The Excel writer is a black box assumed to succeed; the
rows handed to it are the `written` field of the result (`none` when
the run never reaches the write).  Message strings are modelled up to
the data they carry (the elapsed-time figure and the Python exception
text are elided). -/

/-- Python `FieldRule` (`worker.py` lines 31–41). -/
structure FieldRule where
  name : String
  pattern : String
deriving DecidableEq, Repr

/-- A compiled user pattern: whether the pattern has capturing groups
(`m.groups()` non-empty), and its `search` returning `(group 0, group 1)`. -/
structure CompiledPat where
  hasGroups : Bool
  search : String → Option (String × String)

/-- The heuristic catalog the worker dispatches to (the functions
imported from `heuristics.py`). -/
structure Heuristics where
  fecha : String → String
  tipo : String → String
  nombreDoc : String → String × String
  cargo : String → String
  concepto : String → String
  examenes : String → String
  recoMed : String → String
  recoOcup : String → String
  habitos : String → String

/-- The concrete catalog of `heuristics.py`. -/
def templateHeuristics : Heuristics where
  fecha := h_find_fecha
  tipo := h_find_tipo_examen
  nombreDoc := h_find_nombre_y_doc
  cargo := h_find_cargo
  concepto := h_find_concepto
  examenes := h_find_examenes
  recoMed := h_find_reco_medicas
  recoOcup := h_find_reco_ocup
  habitos := h_find_habitos

/-- Worker configuration (`ExtractWorker.__init__`). -/
structure RunConfig where
  fields : List FieldRule
  outXlsx : String
  useTemplateHeuristics : Bool
  maxPages : Int
  includePdfPage : Bool

/-- One emitted signal. -/
inductive Event where
  | progress (pct : Nat) (msg : String)
  | errorE (msg : String)
  | finishedE (path : String)
deriving DecidableEq, Repr

/-- The observable outcome of a run: the signal trace, and the rows
handed to the spreadsheet writer (`none` when no write happened). -/
structure RunOut where
  trace : List Event
  written : Option (List (List (String × String)))

/-- The heuristic dispatch (`worker.py` lines 120–143): trimmed,
lowercased field name against the fixed prefix/equality table;
unrecognized names give `""`. -/
def heurValue (H : Heuristics) (name text : String) : String :=
  let key := toLowerPy (pyStrip name)
  if strStartsWith key "fecha de realiz" then H.fecha text
  else if strStartsWith key "tipo de ex" then H.tipo text
  else if key = "apellidos y nombres" then (H.nombreDoc text).1
  else if strStartsWith key "documento" then (H.nombreDoc text).2
  else if key = "cargo" then H.cargo text
  else if strStartsWith key "concepto de aptitud" then H.concepto text
  else if strStartsWith key "exámenes practicados" then H.examenes text
  else if strStartsWith key "recomendaciones m" then H.recoMed text
  else if strStartsWith key "recomendaciones o" then H.recoOcup text
  else if strStartsWith key "hábitos" ∨ strStartsWith key "habitos" then H.habitos text
  else ""

/-- Applying a compiled user pattern (`worker.py` lines 115–119): on a
match, the first capturing group if the pattern has one, else the whole
match, normalized; else `""`. -/
def patValue (p : CompiledPat) (text : String) : String :=
  match p.search text with
  | some m => normalize_spaces (if p.hasGroups then m.2 else m.1)
  | none => ""

/-- One field's value (`worker.py` lines 112–144): the compiled user
pattern when present, else the heuristic dispatch when enabled, else `""`. -/
def fieldValue (H : Heuristics) (useH : Bool) (pat : Option CompiledPat)
    (name text : String) : String :=
  match pat with
  | some p => patValue p text
  | none => if useH then heurValue H name text else ""

/-- Python `row[k] = v` on an insertion-ordered string map (Python dict:
overwriting keeps the original position). -/
def rowSet (row : List (String × String)) (k v : String) : List (String × String) :=
  if row.any (fun pr => pr.1 = k) then
    row.map (fun pr => if pr.1 = k then (k, v) else pr)
  else row ++ [(k, v)]

/-- Setup compilation (`worker.py` lines 89–95): compile every
non-empty pattern in order; the first failure aborts with that rule's
name. -/
def compileFields (compile : String → Option CompiledPat) :
    List FieldRule → Except String (List (String × Option CompiledPat))
  | [] => .ok []
  | fr :: rest =>
    if fr.pattern = "" then
      (compileFields compile rest).map (fun l => (fr.name, none) :: l)
    else
      match compile fr.pattern with
      | some p => (compileFields compile rest).map (fun l => (fr.name, some p) :: l)
      | none => .error fr.name

/-- Python `compiled.get(name)` on the dict built by the setup loop: the last
binding of a duplicated key wins; a `none` stored value and a missing
key are both `None`. -/
def dictGet (l : List (String × Option CompiledPat)) (k : String) : Option CompiledPat :=
  match l.reverse.find? (fun pr => pr.1 = k) with
  | some pr => pr.2
  | none => none

/-- One page's row (`worker.py` lines 110–148). -/
def pageRow (H : Heuristics) (compiled : List (String × Option CompiledPat))
    (fields : List FieldRule) (useH includePage : Bool) (idx : Nat) (text : String) :
    List (String × String) :=
  let row := fields.foldl (fun row fr =>
    rowSet row fr.name (fieldValue H useH (dictGet compiled fr.name) fr.name text)) []
  if includePage then rowSet row "Página PDF" (toString (idx + 1)) else row

/-- Python `total_pages = min(len(doc), max_pages if max_pages > 0 else len(doc))`. -/
def totalPagesOf (doc : List String) (maxPages : Int) : Nat :=
  if 0 < maxPages then min doc.length maxPages.toNat else doc.length

/-- The cancellation message. -/
def cancelMsg : String := "Proceso cancelado por el usuario."

/-- The page loop (`worker.py` lines 100–155): poll the cancellation
flag before each page (an `.error` result carries the whole trace and
means the run was cancelled, discarding the accumulated rows); else
extract the page text, count it when blank, build the row and emit a
progress signal when the integer percentage changed. -/
def pageLoop (H : Heuristics) (compiled : List (String × Option CompiledPat))
    (fields : List FieldRule) (useH includePage : Bool) (doc : List String)
    (cancel : Nat → Bool) (totalPages : Nat) :
    List Nat → List (List (String × String)) → Nat → Nat → List Event →
    Except (List Event) (List (List (String × String)) × Nat × Nat × List Event)
  | [], rows, tl, le, evs => .ok (rows, tl, le, evs)
  | idx :: rest, rows, tl, le, evs =>
    if cancel idx then .error (evs ++ [.errorE cancelMsg])
    else
      let text := doc.getD idx ""
      let tl2 := if pyStrip text = "" then tl + 1 else tl
      let rows2 := rows ++ [pageRow H compiled fields useH includePage idx text]
      let pct := (idx + 1) * 100 / totalPages
      if pct ≠ le then
        pageLoop H compiled fields useH includePage doc cancel totalPages rest rows2 tl2 pct
          (evs ++ [.progress pct ("Procesando página " ++ toString (idx + 1) ++ "/" ++
            toString totalPages)])
      else
        pageLoop H compiled fields useH includePage doc cancel totalPages rest rows2 tl2 le evs

/-- Python `ExtractWorker.run` (`worker.py` lines 78–168), given an opened
document: setup compilation (a failure is fatal before any page), the
page loop, the scanned-document warning (`int(total_pages * 0.6)`
agrees with exact integer arithmetic on every value the cap admits),
then the write, the `finished` signal and the completion progress
message. -/
def runWorker (H : Heuristics) (compile : String → Option CompiledPat)
    (doc : List String) (cancel : Nat → Bool) (cfg : RunConfig) : RunOut :=
  let totalPages := totalPagesOf doc cfg.maxPages
  match compileFields compile cfg.fields with
  | .error nm => { trace := [.errorE ("Regex inválida para " ++ nm)], written := none }
  | .ok compiled =>
    match pageLoop H compiled cfg.fields cfg.useTemplateHeuristics cfg.includePdfPage doc
        cancel totalPages (rangeList 0 totalPages) [] 0 0 [] with
    | .error evs => { trace := evs, written := none }
    | .ok (rows, tl, _, evs) =>
      let evs2 :=
        if max 3 (totalPages * 6 / 10) < tl then
          evs ++ [.progress 100 ("Advertencia: " ++ toString tl ++ "/" ++
            toString totalPages ++ " páginas sin texto (PDF escaneado)")]
        else evs
      { trace := evs2 ++ [.finishedE cfg.outXlsx,
          .progress 100 ("Completado. Filas: " ++ toString rows.length)],
        written := some rows }

/-- The percentages of the progress events of a trace. -/
def progressPcts (evs : List Event) : List Nat :=
  evs.filterMap (fun e => match e with | .progress p _ => some p | _ => none)

/-! ### Concrete fixtures used by the verification -/

/-- A page with the personal-data block (header, label, name), a stop
header, then a job-title-like uppercase line outside the block. -/
def c1text : String :=
  "DATOS DEL TRABAJADOR\nAPELLIDOS Y NOMBRES\nPEREZ GOMEZ JUAN\nCARGO\nGERENTE COMERCIAL BANCA"

/-- A page whose block contains only the deny-listed job-title line. -/
def c2text : String :=
  "DATOS DEL TRABAJADOR\nOPERARIO DE ASEO GENERAL\nCARGO"

/-- A footer print date followed, more than 60 characters later, by the
real exam date. -/
def c7footer : String :=
  "Impreso el 01 01 2020 " ++ String.mk (List.replicate 70 'x') ++ " examen 20 03 2024"

/-- Label line, then 7 empty lines, then the name: the name is the
first non-empty line after the label yet lies beyond the 7-line window. -/
def c8text : String :=
  "DATOS DEL TRABAJADOR\nAPELLIDOS Y NOMBRES\n\n\n\n\n\n\n\nPEREZ GOMEZ JUAN"

/-- A compiled pattern standing for a user regex with one group that
always matches a sentinel value. -/
def patSentinel : CompiledPat where
  hasGroups := true
  search := fun _ => some ("G0 SENTINEL", "SENTINEL")

/-- A one-field rule list whose pattern will fail to compile. -/
def cfgBad : RunConfig where
  fields := [{ name := "F", pattern := "(" }]
  outXlsx := "salida.xlsx"
  useTemplateHeuristics := true
  maxPages := 2000
  includePdfPage := false

/-- An empty-rules configuration with `max_pages = 10`. -/
def cfg10 : RunConfig where
  fields := []
  outXlsx := "salida.xlsx"
  useTemplateHeuristics := true
  maxPages := 10
  includePdfPage := false

/-- An empty-rules configuration with the default `max_pages = 2000`. -/
def cfg2000 : RunConfig where
  fields := []
  outXlsx := "salida.xlsx"
  useTemplateHeuristics := true
  maxPages := 2000
  includePdfPage := false

/-! ### Helper lemmas -/

theorem scanList_eq_some {f : α → Option β} {b : β} :
    ∀ {l : List α}, scanList f l = some b → ∃ a, a ∈ l ∧ f a = some b := by
  intro l
  induction l with
  | nil => intro h; simp [scanList] at h
  | cons a rest ih =>
    intro h
    simp only [scanList] at h
    cases hfa : f a with
    | some c =>
      rw [hfa] at h
      simp [Option.orElse] at h
      exact ⟨a, by simp, by rw [hfa, h]⟩
    | none =>
      rw [hfa] at h
      simp [Option.orElse] at h
      obtain ⟨x, hx, hfx⟩ := ih h
      exact ⟨x, by simp [hx], hfx⟩

theorem scanList_append (f : α → Option β) :
    ∀ (l1 l2 : List α), scanList f (l1 ++ l2) =
      (scanList f l1).orElse fun _ => scanList f l2 := by
  intro l1
  induction l1 with
  | nil => intro l2; simp [scanList, Option.orElse]
  | cons a rest ih =>
    intro l2
    simp only [List.cons_append, scanList, ih]
    cases f a with
    | some b => simp [Option.orElse]
    | none =>
      simp only [Option.orElse, List.append_eq]
      rw [ih l2]
      rfl

theorem scanList_none {f : α → Option β} :
    ∀ {l : List α}, (∀ a ∈ l, f a = none) → scanList f l = none := by
  intro l
  induction l with
  | nil => intro _; simp [scanList]
  | cons a rest ih =>
    intro h
    simp only [scanList, h a (by simp), Option.orElse]
    exact ih fun x hx => h x (by simp [hx])

theorem scanList_cons_some {f : α → Option β} {a : α} {b : β} {l : List α}
    (h : f a = some b) : scanList f (a :: l) = some b := by
  simp [scanList, h, Option.orElse]

theorem findIdxFrom_append {p : String → Bool} {i : Nat} :
    ∀ {ls : List String} {n : Nat} (post : List String),
      findIdxFrom p ls n = some i → findIdxFrom p (ls ++ post) n = some i := by
  intro ls
  induction ls with
  | nil => intro n post h; simp [findIdxFrom] at h
  | cons l rest ih =>
    intro n post h
    simp only [findIdxFrom] at h ⊢
    by_cases hp : p l
    · simpa [hp] using h
    · simp only [hp, if_false, List.cons_append] at h ⊢
      exact ih post h

theorem findIdxFrom_of_mem {p : String → Bool} :
    ∀ {ls : List String} {n j : Nat}, j < ls.length → p (ls.getD j "") = true →
      ∃ i, findIdxFrom p ls n = some i ∧ i ≤ n + j := by
  intro ls
  induction ls with
  | nil => intro n j h; simp at h
  | cons l rest ih =>
    intro n j hj hp
    simp only [findIdxFrom]
    by_cases hl : p l
    · exact ⟨n, by simp [hl], by omega⟩
    · cases j with
      | zero => simp [List.getD] at hp; rw [hp] at hl; simp at hl
      | succ j2 =>
        simp only [List.length_cons] at hj
        have hp2 : p (rest.getD j2 "") = true := by simpa [List.getD] using hp
        obtain ⟨i, hi, hle⟩ := ih (n := n + 1) (by omega) hp2
        exact ⟨i, by simp [hl, hi], by omega⟩

theorem findIdxFrom_ge {p : String → Bool} :
    ∀ {ls : List String} {n i : Nat}, findIdxFrom p ls n = some i → n ≤ i := by
  intro ls
  induction ls with
  | nil => intro n i h; simp [findIdxFrom] at h
  | cons l rest ih =>
    intro n i h
    simp only [findIdxFrom] at h
    by_cases hl : p l
    · simp [hl] at h; omega
    · simp only [hl, if_false] at h
      have := ih h
      omega

theorem pctOf_mono {t a b : Nat} (h : a ≤ b) : (a + 1) * 100 / t ≤ (b + 1) * 100 / t :=
  Nat.div_le_div_right (Nat.mul_le_mul_right 100 (by omega))

theorem progressPcts_append (l1 l2 : List Event) :
    progressPcts (l1 ++ l2) = progressPcts l1 ++ progressPcts l2 := by
  simp [progressPcts]

theorem pageLoop_no_cancel {H compiled fields useH includePage doc cancel totalPages} :
    ∀ (pages : List Nat) (rows : List (List (String × String))) (tl le : Nat)
      (evs : List Event), (∀ idx ∈ pages, cancel idx = false) →
      ∃ tl2 le2 evs2,
        pageLoop H compiled fields useH includePage doc cancel totalPages pages rows tl le evs =
          .ok (rows ++ pages.map (fun i =>
            pageRow H compiled fields useH includePage i (doc.getD i "")), tl2, le2, evs2) := by
  intro pages
  induction pages with
  | nil => intro rows tl le evs _; exact ⟨tl, le, evs, by simp [pageLoop]⟩
  | cons idx rest ih =>
    intro rows tl le evs hnc
    have hidx : cancel idx = false := hnc idx (by simp)
    simp only [pageLoop, hidx, if_false, Bool.false_eq_true]
    by_cases hpct : (idx + 1) * 100 / totalPages ≠ le
    · rw [if_pos hpct]
      obtain ⟨tl2, le2, evs2, heq⟩ := ih
        (rows ++ [pageRow H compiled fields useH includePage idx (doc.getD idx "")])
        (if pyStrip (doc.getD idx "") = "" then tl + 1 else tl)
        ((idx + 1) * 100 / totalPages)
        (evs ++ [.progress ((idx + 1) * 100 / totalPages)
          ("Procesando página " ++ toString (idx + 1) ++ "/" ++ toString totalPages)])
        (fun x hx => hnc x (by simp [hx]))
      exact ⟨tl2, le2, evs2, by simpa using heq⟩
    · rw [if_neg hpct]
      obtain ⟨tl2, le2, evs2, heq⟩ := ih
        (rows ++ [pageRow H compiled fields useH includePage idx (doc.getD idx "")])
        (if pyStrip (doc.getD idx "") = "" then tl + 1 else tl) le evs
        (fun x hx => hnc x (by simp [hx]))
      exact ⟨tl2, le2, evs2, by simpa using heq⟩

theorem pageLoop_cancelled {H compiled fields useH includePage doc cancel totalPages} :
    ∀ (pages : List Nat) (rows : List (List (String × String))) (tl le : Nat)
      (evs : List Event), (∃ idx ∈ pages, cancel idx = true) →
      ∃ evs2,
        pageLoop H compiled fields useH includePage doc cancel totalPages pages rows tl le evs =
          .error evs2 ∧ evs2.getLast? = some (.errorE cancelMsg) := by
  intro pages
  induction pages with
  | nil => intro rows tl le evs h; simp at h
  | cons idx rest ih =>
    intro rows tl le evs h
    by_cases hidx : cancel idx = true
    · exact ⟨evs ++ [.errorE cancelMsg], by simp [pageLoop, hidx], List.getLast?_concat evs⟩
    · have hrest : ∃ x ∈ rest, cancel x = true := by
        obtain ⟨x, hx, hcx⟩ := h
        rcases List.mem_cons.mp hx with rfl | hmem
        · exact absurd hcx hidx
        · exact ⟨x, hmem, hcx⟩
      simp only [pageLoop, hidx, if_false, Bool.false_eq_true]
      by_cases hpct : (idx + 1) * 100 / totalPages ≠ le
      · rw [if_pos hpct]
        exact ih _ _ _ _ hrest
      · rw [if_neg hpct]
        exact ih _ _ _ _ hrest

theorem pageLoop_pcts {H compiled fields useH includePage doc cancel totalPages} :
    ∀ (pages : List Nat) (rows rows2 : List (List (String × String))) (tl le tl2 le2 : Nat)
      (evs evs2 : List Event),
      (progressPcts evs).Pairwise (· < ·) →
      (∀ p ∈ progressPcts evs, p ≤ le) →
      (∀ idx ∈ pages, le ≤ (idx + 1) * 100 / totalPages) →
      pages.Pairwise (· ≤ ·) →
      pageLoop H compiled fields useH includePage doc cancel totalPages pages rows tl le evs =
        .ok (rows2, tl2, le2, evs2) →
      (progressPcts evs2).Pairwise (· < ·) := by
  intro pages
  induction pages with
  | nil =>
    intro rows rows2 tl le tl2 le2 evs evs2 hpair _ _ _ heq
    simp only [pageLoop, Except.ok.injEq] at heq
    obtain ⟨_, _, _, rfl⟩ := heq
    exact hpair
  | cons idx rest ih =>
    intro rows rows2 tl le tl2 le2 evs evs2 hpair hle hnext hsorted heq
    simp only [pageLoop] at heq
    by_cases hc : cancel idx = true
    · simp [hc] at heq
    · simp only [hc, if_false, Bool.false_eq_true] at heq
      have hmono : ∀ x ∈ rest, (idx + 1) * 100 / totalPages ≤ (x + 1) * 100 / totalPages :=
        fun x hx => pctOf_mono ((List.pairwise_cons.mp hsorted).1 x hx)
      have hsorted2 := (List.pairwise_cons.mp hsorted).2
      by_cases hpct : (idx + 1) * 100 / totalPages ≠ le
      · rw [if_pos hpct] at heq
        have hlt : le < (idx + 1) * 100 / totalPages := by
          have := hnext idx (by simp)
          omega
        refine ih _ _ _ _ _ _ _ _ ?_ ?_ ?_ hsorted2 heq
        · rw [progressPcts_append]
          refine List.pairwise_append.mpr ⟨hpair, by simp [progressPcts], ?_⟩
          intro a ha b hb
          simp [progressPcts] at hb
          subst hb
          exact lt_of_le_of_lt (hle a ha) hlt
        · intro p hp
          rw [progressPcts_append] at hp
          rcases List.mem_append.mp hp with h1 | h2
          · exact le_of_lt (lt_of_le_of_lt (hle p h1) hlt)
          · simp [progressPcts] at h2
            omega
        · intro x hx
          exact hmono x hx
      · rw [if_neg hpct] at heq
        have hlepct : le = (idx + 1) * 100 / totalPages := (not_not.mp hpct).symm
        refine ih _ _ _ _ _ _ _ _ hpair hle ?_ hsorted2 heq
        intro x hx
        rw [hlepct]
        exact hmono x hx

theorem compileFields_error {compile : String → Option CompiledPat} :
    ∀ {fields : List FieldRule},
      (∃ fr ∈ fields, fr.pattern ≠ "" ∧ compile fr.pattern = none) →
      ∃ nm, compileFields compile fields = .error nm := by
  intro fields
  induction fields with
  | nil => intro h; simp at h
  | cons fr0 rest ih =>
    intro h
    by_cases hp : fr0.pattern = ""
    · have hrest : ∃ fr ∈ rest, fr.pattern ≠ "" ∧ compile fr.pattern = none := by
        obtain ⟨fr, hmem, hne, hcomp⟩ := h
        rcases List.mem_cons.mp hmem with rfl | hmem2
        · exact absurd hp hne
        · exact ⟨fr, hmem2, hne, hcomp⟩
      obtain ⟨nm, hnm⟩ := ih hrest
      exact ⟨nm, by simp [compileFields, hp, hnm, Except.map]⟩
    · cases hcomp : compile fr0.pattern with
      | none => exact ⟨fr0.name, by simp [compileFields, hp, hcomp]⟩
      | some p =>
        have hrest : ∃ fr ∈ rest, fr.pattern ≠ "" ∧ compile fr.pattern = none := by
          obtain ⟨fr, hmem, hne, hc⟩ := h
          rcases List.mem_cons.mp hmem with rfl | hmem2
          · rw [hcomp] at hc; exact absurd hc (by simp)
          · exact ⟨fr, hmem2, hne, hc⟩
        obtain ⟨nm, hnm⟩ := ih hrest
        exact ⟨nm, by simp [compileFields, hp, hcomp, hnm, Except.map]⟩

theorem compileFields_names {compile : String → Option CompiledPat} :
    ∀ {fields : List FieldRule} {cpl : List (String × Option CompiledPat)},
      compileFields compile fields = .ok cpl →
      cpl.map Prod.fst = fields.map FieldRule.name := by
  intro fields
  induction fields with
  | nil => intro cpl h; simp [compileFields] at h; simp [← h]
  | cons fr0 rest ih =>
    intro cpl h
    by_cases hp : fr0.pattern = ""
    · simp only [compileFields, hp, if_true] at h
      cases hrest : compileFields compile rest with
      | error e => rw [hrest] at h; simp [Except.map] at h
      | ok cplR =>
        rw [hrest] at h
        simp only [Except.map, Except.ok.injEq] at h
        subst h
        simp [ih hrest]
    · simp only [compileFields, hp, if_false] at h
      cases hcomp : compile fr0.pattern with
      | none => rw [hcomp] at h; simp at h
      | some p =>
        rw [hcomp] at h
        cases hrest : compileFields compile rest with
        | error e => rw [hrest] at h; simp [Except.map] at h
        | ok cplR =>
          rw [hrest] at h
          simp only [Except.map, Except.ok.injEq] at h
          subst h
          simp [ih hrest]

theorem compileFields_lookup {compile : String → Option CompiledPat} :
    ∀ {fields : List FieldRule} {cpl : List (String × Option CompiledPat)}
      {fr : FieldRule},
      (fields.map FieldRule.name).Nodup → fr ∈ fields → fr.pattern ≠ "" →
      compileFields compile fields = .ok cpl →
      ∃ p, compile fr.pattern = some p ∧ dictGet cpl fr.name = some p := by
  intro fields
  induction fields with
  | nil => intro cpl fr _ hmem; simp at hmem
  | cons fr0 rest ih =>
    intro cpl fr hnodup hmem hne hok
    have hnodup2 : (rest.map FieldRule.name).Nodup := (List.nodup_cons.mp (by simpa using hnodup)).2
    have hnotin : fr0.name ∉ rest.map FieldRule.name :=
      (List.nodup_cons.mp (by simpa using hnodup)).1
    rcases List.mem_cons.mp hmem with rfl | hmem2
    · -- the target rule is the head
      simp only [compileFields, hne, if_false] at hok
      cases hcomp : compile fr.pattern with
      | none => rw [hcomp] at hok; simp at hok
      | some p =>
        rw [hcomp] at hok
        cases hrest : compileFields compile rest with
        | error e => rw [hrest] at hok; simp [Except.map] at hok
        | ok cplR =>
          rw [hrest] at hok
          simp only [Except.map, Except.ok.injEq] at hok
          subst hok
          refine ⟨p, rfl, ?_⟩
          have hnames := compileFields_names hrest
          have hnone : cplR.reverse.find? (fun pr => pr.1 = fr.name) = none := by
            rw [List.find?_eq_none]
            intro pr hpr
            have : pr.1 ∈ cplR.map Prod.fst :=
              List.mem_map_of_mem Prod.fst (List.mem_reverse.mp hpr)
            rw [hnames] at this
            simp only [decide_eq_true_eq]
            intro hprname
            rw [hprname] at this
            exact hnotin this
          simp [dictGet, List.find?_append, hnone, Option.or]
    · -- the target rule is in the tail
      by_cases hp : fr0.pattern = ""
      · simp only [compileFields, hp, if_true] at hok
        cases hrest : compileFields compile rest with
        | error e => rw [hrest] at hok; simp [Except.map] at hok
        | ok cplR =>
          rw [hrest] at hok
          simp only [Except.map, Except.ok.injEq] at hok
          subst hok
          obtain ⟨p, hcomp, hget⟩ := ih hnodup2 hmem2 hne hrest
          refine ⟨p, hcomp, ?_⟩
          simp only [dictGet, List.reverse_cons, List.find?_append] at hget ⊢
          cases hf : List.find? (fun pr => decide (pr.1 = fr.name)) cplR.reverse with
          | some pr =>
            rw [hf] at hget
            simp only [Option.or]
            exact hget
          | none =>
            rw [hf] at hget
            simp at hget
      · simp only [compileFields, hp, if_false] at hok
        cases hcomp0 : compile fr0.pattern with
        | none => rw [hcomp0] at hok; simp at hok
        | some p0 =>
          rw [hcomp0] at hok
          cases hrest : compileFields compile rest with
          | error e => rw [hrest] at hok; simp [Except.map] at hok
          | ok cplR =>
            rw [hrest] at hok
            simp only [Except.map, Except.ok.injEq] at hok
            subst hok
            obtain ⟨p, hcomp, hget⟩ := ih hnodup2 hmem2 hne hrest
            refine ⟨p, hcomp, ?_⟩
            simp only [dictGet, List.reverse_cons, List.find?_append] at hget ⊢
            cases hf : List.find? (fun pr => decide (pr.1 = fr.name)) cplR.reverse with
            | some pr =>
              rw [hf] at hget
              simp only [Option.or]
              exact hget
            | none =>
              rw [hf] at hget
              simp at hget

theorem strategyA_sound {block : List String} {r : String × String}
    (h : strategyA block = some r) :
    ∃ u, looks_like_upper_name u = true ∧ r.1 = titlecase u := by
  obtain ⟨i, _, hi⟩ := scanList_eq_some h
  by_cases hl : containsSub "APELLIDOS Y NOMBRES" (toUpperPy (block.getD i "")) = true
  · rw [if_pos hl] at hi
    obtain ⟨k, _, hk⟩ := scanList_eq_some hi
    by_cases hc : pyStrip (block.getD k "") ≠ "" ∧
        looks_like_upper_name (pyStrip (block.getD k "")) = true
    · rw [if_pos hc] at hk
      exact ⟨pyStrip (block.getD k ""), hc.2, by rw [← Option.some_inj.mp hk]⟩
    · rw [if_neg hc] at hk
      exact absurd hk (by simp)
  · rw [if_neg hl] at hi
    exact absurd hi (by simp)

theorem strategyB_sound {block : List String} {r : String × String}
    (h : strategyB block = some r) :
    ∃ u, looks_like_upper_name u = true ∧ r.1 = titlecase (clean u) := by
  obtain ⟨ln, _, hln⟩ := scanList_eq_some h
  cases hm : matchBLine ln with
  | none => rw [hm] at hln; exact absurd hln (by simp)
  | some g =>
    obtain ⟨g1, g2, g3⟩ := g
    rw [hm] at hln
    have hln2 : (if looks_like_upper_name g1 = true then
        some (titlecase (clean g1), fmtDoc g2 g3) else none) = some r := hln
    by_cases hl : looks_like_upper_name g1 = true
    · rw [if_pos hl] at hln2
      exact ⟨g1, hl, by rw [← Option.some_inj.mp hln2]⟩
    · rw [if_neg hl] at hln2
      exact absurd hln2 (by simp)

theorem upSearch_sound {block : List String} {i : Nat} {nm : String}
    (h : upSearch block i = some nm) :
    ∃ u, looks_like_upper_name u = true ∧ nm = titlecase (clean u) := by
  obtain ⟨up, _, hup⟩ := scanList_eq_some h
  by_cases hb : up ≤ i
  · rw [if_pos hb] at hup
    by_cases hl : looks_like_upper_name (pyStrip (block.getD (i - up) "")) = true
    · rw [if_pos hl] at hup
      exact ⟨pyStrip (block.getD (i - up) ""), hl, (Option.some_inj.mp hup).symm⟩
    · rw [if_neg hl] at hup
      exact absurd hup (by simp)
  · rw [if_neg hb] at hup
    exact absurd hup (by simp)

theorem downSearch_sound {block : List String} {i : Nat} {nm : String}
    (h : downSearch block i = some nm) :
    ∃ u, looks_like_upper_name u = true ∧ nm = titlecase (clean u) := by
  obtain ⟨dn, _, hdn⟩ := scanList_eq_some h
  by_cases hb : i + dn < block.length
  · rw [if_pos hb] at hdn
    by_cases hl : looks_like_upper_name (pyStrip (block.getD (i + dn) "")) = true
    · rw [if_pos hl] at hdn
      exact ⟨pyStrip (block.getD (i + dn) ""), hl, (Option.some_inj.mp hdn).symm⟩
    · rw [if_neg hl] at hdn
      exact absurd hdn (by simp)
  · rw [if_neg hb] at hdn
    exact absurd hdn (by simp)

theorem strategyC_fst {block : List String} {r : String × String}
    (h : strategyC block = some r) :
    r.1 = "" ∨ ∃ u, looks_like_upper_name u = true ∧ r.1 = titlecase (clean u) := by
  obtain ⟨i, _, hi⟩ := scanList_eq_some h
  cases hd : docSearch true (block.getD i "") with
  | none => rw [hd] at hi; exact absurd hi (by simp)
  | some g =>
    rw [hd] at hi
    have hi2 : (match upSearch block i with
      | some nm => some (nm, fmtDoc g.1 g.2)
      | none =>
        match downSearch block i with
        | some nm => some (nm, fmtDoc g.1 g.2)
        | none => some ("", fmtDoc g.1 g.2)) = some r := hi
    cases hu : upSearch block i with
    | some nm =>
      rw [hu] at hi2
      right
      obtain ⟨u, hl, he⟩ := upSearch_sound hu
      have h3 : (nm, fmtDoc g.1 g.2) = r := Option.some_inj.mp hi2
      exact ⟨u, hl, by rw [← h3]; exact he⟩
    | none =>
      rw [hu] at hi2
      cases hdn : downSearch block i with
      | some nm =>
        rw [hdn] at hi2
        right
        obtain ⟨u, hl, he⟩ := downSearch_sound hdn
        have h3 : (nm, fmtDoc g.1 g.2) = r := Option.some_inj.mp hi2
        exact ⟨u, hl, by rw [← h3]; exact he⟩
      | none =>
        rw [hdn] at hi2
        left
        have h3 : (("", fmtDoc g.1 g.2) : String × String) = r := Option.some_inj.mp hi2
        rw [← h3]

/-- Every non-empty name produced inside the block is the title-cased
form of a line that passed the name predicate. -/
theorem fromBlock_fst_sound {block : List String} (h : (fromBlock block).1 ≠ "") :
    ∃ u, looks_like_upper_name u = true ∧
      ((fromBlock block).1 = titlecase u ∨ (fromBlock block).1 = titlecase (clean u)) := by
  by_cases hb : block = []
  · rw [fromBlock, if_pos hb] at h
    simp at h
  · rw [fromBlock, if_neg hb] at h ⊢
    cases hA : strategyA block with
    | some r =>
      obtain ⟨u, hl, he⟩ := strategyA_sound hA
      exact ⟨u, hl, Or.inl he⟩
    | none =>
      rw [hA] at h
      cases hB : strategyB block with
      | some r =>
        obtain ⟨u, hl, he⟩ := strategyB_sound hB
        exact ⟨u, hl, Or.inr he⟩
      | none =>
        rw [hB] at h
        cases hC : strategyC block with
        | some r =>
          rw [hC] at h
          rcases strategyC_fst hC with he | ⟨u, hl, he⟩
          · exact absurd he h
          · exact ⟨u, hl, Or.inr he⟩
        | none =>
          rw [hC] at h
          exact absurd rfl h

/-- The analogue of `fromBlock_fst_sound` for the whole extractor. -/
theorem hFindLines_fst_sound {ls : List String} (h : (hFindLines ls).1 ≠ "") :
    ∃ u, looks_like_upper_name u = true ∧
      ((hFindLines ls).1 = titlecase u ∨ (hFindLines ls).1 = titlecase (clean u)) := by
  rw [hFindLines] at h ⊢
  cases hs : findStartIdx ls with
  | none =>
    rw [hs] at h
    exact absurd rfl h
  | some s =>
    rw [hs] at h
    exact fromBlock_fst_sound h

/-- Appending lines after an existing stop line never changes the
extractor's result: the block is already closed before them. -/
theorem hFindLines_append {ls : List String} {i j : Nat} (post : List String)
    (hstart : findStartIdx ls = some i) (hij : i < j) (hj : j < ls.length)
    (hstop : isStopLine (ls.getD j "") = true) :
    hFindLines (ls ++ post) = hFindLines ls := by
  have hstart2 : findStartIdx (ls ++ post) = some i := findIdxFrom_append post hstart
  -- the stop line sits at index j - (i+1) of the dropped list
  have hdrop : (ls.drop (i + 1)).getD (j - (i + 1)) "" = ls.getD j "" := by
    rw [List.getD_eq_getElem?_getD, List.getD_eq_getElem?_getD, List.getElem?_drop]
    congr 2
    omega
  have hjd : j - (i + 1) < (ls.drop (i + 1)).length := by
    rw [List.length_drop]
    omega
  obtain ⟨k, hk, hkle⟩ := findIdxFrom_of_mem (n := 0) hjd (by rw [hdrop]; exact hstop)
  have hend : findEndIdx (ls ++ post) i = findEndIdx ls i := by
    rw [findEndIdx, findEndIdx]
    rw [List.drop_append_of_le_length (by omega)]
    rw [findIdxFrom_append post hk, hk]
  have hendle : findEndIdx ls i ≤ ls.length := by
    rw [findEndIdx, hk]
    show i + 1 + k ≤ ls.length
    omega
  have hblock : blockOf (ls ++ post) i = blockOf ls i := by
    simp only [blockOf, hend]
    rw [List.drop_append_of_le_length (by omega)]
    rw [List.take_append_of_le_length]
    rw [List.length_drop]
    omega
  simp only [hFindLines, hstart, hstart2, hblock]

theorem scanList_range'_first {β} {f : Nat → Option β} {r : β} :
    ∀ (n a i : Nat), a ≤ i → i < a + n → (∀ x, a ≤ x → x < i → f x = none) →
      f i = some r → scanList f (List.range' a n) = some r := by
  intro n
  induction n with
  | zero => intro a i h1 h2 _ _; omega
  | succ n ih =>
    intro a i h1 h2 hnone hfi
    show scanList f (a :: List.range' (a + 1) n) = some r
    by_cases hai : a = i
    · subst hai
      simp [scanList, hfi, Option.orElse]
    · have ha : f a = none := hnone a le_rfl (by omega)
      simp only [scanList, ha, Option.orElse]
      exact ih (a + 1) i (by omega) (by omega) (fun x hx1 hx2 => hnone x (by omega) hx2) hfi

/-- When strategy A succeeds on the block, it decides the extractor's
whole answer. -/
theorem hFindLines_of_strategyA {ls : List String} {s : Nat} {r : String × String}
    (hs : findStartIdx ls = some s) (hA : strategyA (blockOf ls s) = some r) :
    hFindLines ls = r := by
  have hne : blockOf ls s ≠ [] := by
    intro he
    rw [he] at hA
    simp [strategyA, rangeList, scanList] at hA
  simp only [hFindLines, hs]
  rw [fromBlock, if_neg hne, hA]

theorem isDigitC_not_space {c : Char} (hc : isDigitC c = true) : isSpacePy c = false := by
  rw [isSpacePy]
  refine decide_eq_false ?_
  rintro (rfl | rfl | rfl | rfl | rfl | rfl) <;> exact absurd hc (by decide)

theorem isDigitC_ne {c : Char} (hc : isDigitC c = true) : c ≠ 'D' := by
  rintro rfl
  exact absurd hc (by decide)

theorem matchFechaLabelAt_head {c : Char} {rest : List Char} (h : c ≠ 'D') :
    matchFechaLabelAt (c :: rest) = none := by
  rw [matchFechaLabelAt]
  have : eatOne (fun x => x = 'D') (c :: rest) = none := by
    rw [eatOne]
    exact if_neg (by simpa using h)
  simp [bind, this]

theorem findLabelFrom_none :
    ∀ {cs : List Char}, (∀ c ∈ cs, c ≠ 'D') → findLabelFrom cs = none := by
  intro cs
  induction cs with
  | nil => intro _; rfl
  | cons c rest ih =>
    intro h
    rw [findLabelFrom]
    rw [matchFechaLabelAt_head (h c (by simp))]
    simp only [Option.orElse]
    exact ih fun x hx => h x (by simp [hx])

theorem getLast?_append_pair (l : List Event) (a b : Event) :
    (l ++ [a, b]).getLast? = some b := by
  have : l ++ [a, b] = (l ++ [a]) ++ [b] := by simp
  rw [this, List.getLast?_concat]

/-! ### The claims -/

/-- C1: block confinement of the name/document extractor.  (i) With no
start-header line the extractor returns `("", "")`.  (ii) Once a
stop-header line closes the block, any lines appended after it are
invisible to the extractor: the result over the extended line list is
the result over the original one.  (iii) On a page with a personal-data
header, a name line, a stop header, then a second uppercase name-like
line, the extractor returns the first name, never the second — both
with the labelled name line (strategy A) and with the document on the
name line itself (strategy B). -/
theorem C1_block_confinement :
    (∀ text : String, findStartIdx (linesOf text) = none →
       h_find_nombre_y_doc text = ("", "")) ∧
    (∀ (ls post : List String) (i j : Nat),
       findStartIdx ls = some i → i < j → j < ls.length →
       isStopLine (ls.getD j "") = true →
       hFindLines (ls ++ post) = hFindLines ls) ∧
    (h_find_nombre_y_doc c1text = ("Perez Gomez Juan", "") ∧
       h_find_nombre_y_doc
         "DATOS DEL TRABAJADOR
PEREZ GOMEZ JUAN CC 12345678
CARGO
GERENTE COMERCIAL BANCA"
         = ("Perez Gomez Juan", "CC 12345678") ∧
       titlecase "GERENTE COMERCIAL BANCA" ≠ "Perez Gomez Juan") := by
  refine ⟨?_, ?_, by decide, by decide, by decide⟩
  · intro text h
    simp only [h_find_nombre_y_doc, hFindLines, h]
  · intro ls post i j hstart hij hj hstop
    exact hFindLines_append post hstart hij hj hstop

/-- C1 witness: the absent-header case and the append-invariance case,
each at a concrete input. -/
theorem C1_block_confinement_witness :
    h_find_nombre_y_doc "sin encabezado\nPEREZ GOMEZ JUAN" = ("", "") ∧
    hFindLines (["DATOS DEL TRABAJADOR", "PEREZ GOMEZ JUAN", "CARGO"] ++
        ["NOMBRE FALSO POSTERIOR"]) =
      hFindLines ["DATOS DEL TRABAJADOR", "PEREZ GOMEZ JUAN", "CARGO"] :=
  ⟨C1_block_confinement.1 "sin encabezado\nPEREZ GOMEZ JUAN" (by decide),
   C1_block_confinement.2.1 ["DATOS DEL TRABAJADOR", "PEREZ GOMEZ JUAN", "CARGO"]
     ["NOMBRE FALSO POSTERIOR"] 0 2 (by decide) (by decide) (by decide) (by decide)⟩

/-- C2: deny-list enforcement.  (i) Any line whose (uppercased)
space-split tokens meet the deny-list fails the name predicate.
(ii) Every non-empty name the extractor returns is the title-cased form
of a line that passed the predicate — so a deny-listed line is never
returned.  (iii) `"OPERARIO DE ASEO GENERAL"` inside the block is not
returned as a name. -/
theorem C2_deny_list :
    (∀ s : String, (∃ t ∈ pySplitWs (toUpperPy s), t ∈ cargoTokens) →
       looks_like_upper_name s = false) ∧
    (∀ ls : List String, (hFindLines ls).1 = "" ∨
       ∃ u, looks_like_upper_name u = true ∧
         ((hFindLines ls).1 = titlecase u ∨ (hFindLines ls).1 = titlecase (clean u))) ∧
    h_find_nombre_y_doc c2text = ("", "") := by
  refine ⟨?_, ?_, by decide⟩
  · rintro s ⟨t, htmem, htcargo⟩
    rw [looks_like_upper_name]
    by_cases h1 : (toUpperPy s).length < 6
    · rw [if_pos h1]
    · rw [if_neg h1]
      by_cases h2 : (!((toUpperPy s).data.all isNameChar)) = true
      · rw [if_pos h2]
      · rw [if_neg h2]
        have h3 : (pySplitWs (toUpperPy s)).any
            (fun t => decide (2 < t.length) && cargoTokens.contains t) = true := by
          rw [List.any_eq_true]
          refine ⟨t, htmem, ?_⟩
          have hlong : ∀ u ∈ cargoTokens, 2 < u.length := by decide
          simp [hlong t htcargo, htcargo]
        rw [if_pos h3]
  · intro ls
    by_cases h : (hFindLines ls).1 = ""
    · exact Or.inl h
    · exact Or.inr (hFindLines_fst_sound h)

/-- C2 witness: the deny-list test line fails the predicate, and a
concrete block's name is accounted for by the soundness disjunction. -/
theorem C2_deny_list_witness :
    looks_like_upper_name "OPERARIO DE ASEO GENERAL" = false ∧
    ((hFindLines ["DATOS DEL TRABAJADOR", "OPERARIO DE ASEO GENERAL", "CARGO"]).1 = "" ∨
      ∃ u, looks_like_upper_name u = true ∧
        ((hFindLines ["DATOS DEL TRABAJADOR", "OPERARIO DE ASEO GENERAL", "CARGO"]).1 =
            titlecase u ∨
          (hFindLines ["DATOS DEL TRABAJADOR", "OPERARIO DE ASEO GENERAL", "CARGO"]).1 =
            titlecase (clean u))) :=
  ⟨C2_deny_list.1 "OPERARIO DE ASEO GENERAL" ⟨"OPERARIO", by decide, by decide⟩,
   C2_deny_list.2.1 ["DATOS DEL TRABAJADOR", "OPERARIO DE ASEO GENERAL", "CARGO"]⟩

/-- C3: user-pattern precedence and per-field resolution.  (i) With a
compiled pattern the field value is the pattern value, independent of
the heuristic catalog — the fallback is never invoked.  (ii) The
pattern value is the normalized first group (or whole match), and `""`
on no match.  (iii) With no pattern and the fallback enabled, the value
is the heuristic dispatch.  (iv) An unrecognized field name yields `""`.
(v) Under distinct rule names, a rule with a non-empty pattern really is
resolved to its own compiled pattern.  (vi) A matching sentinel pattern
wins over the `Cargo` heuristic on a text the heuristic would answer. -/
theorem C3_user_pattern_precedence :
    (∀ (H H2 : Heuristics) (useH : Bool) (p : CompiledPat) (name text : String),
       fieldValue H useH (some p) name text = patValue p text ∧
       fieldValue H useH (some p) name text = fieldValue H2 useH (some p) name text) ∧
    (∀ (p : CompiledPat) (text : String) (m : String × String), p.search text = some m →
       patValue p text = normalize_spaces (if p.hasGroups then m.2 else m.1)) ∧
    (∀ (p : CompiledPat) (text : String), p.search text = none → patValue p text = "") ∧
    (∀ (H : Heuristics) (name text : String),
       fieldValue H true none name text = heurValue H name text) ∧
    (∀ (H : Heuristics) (text : String), heurValue H "CAMPO DESCONOCIDO" text = "") ∧
    (∀ (compile : String → Option CompiledPat) (fields : List FieldRule)
       (cpl : List (String × Option CompiledPat)) (fr : FieldRule),
       (fields.map FieldRule.name).Nodup → fr ∈ fields → fr.pattern ≠ "" →
       compileFields compile fields = .ok cpl →
       ∃ p, compile fr.pattern = some p ∧ dictGet cpl fr.name = some p) ∧
    (fieldValue templateHeuristics true (some patSentinel) "Cargo" "Cargo\nOperario General\nx"
        = "SENTINEL" ∧
     heurValue templateHeuristics "Cargo" "Cargo\nOperario General\nx" = "Operario General") := by
  refine ⟨fun _ _ _ _ _ _ => ⟨rfl, rfl⟩, ?_, ?_, fun _ _ _ => rfl, fun _ _ => rfl,
    fun compile fields cpl fr h1 h2 h3 h4 => compileFields_lookup h1 h2 h3 h4,
    by decide, by decide⟩
  · intro p text m h
    rw [patValue, h]
  · intro p text h
    rw [patValue, h]

/-- C3 witness: the precedence equations and the lookup conjunct at a
concrete rule list. -/
theorem C3_user_pattern_precedence_witness :
    patValue patSentinel "cualquier texto" =
      normalize_spaces (if patSentinel.hasGroups then "SENTINEL" else "G0 SENTINEL") ∧
    ∃ p, (fun _ => some patSentinel) "X(.)" = some p ∧
      dictGet [("F", some patSentinel)] "F" = some p :=
  ⟨C3_user_pattern_precedence.2.1 patSentinel "cualquier texto" ("G0 SENTINEL", "SENTINEL") rfl,
   C3_user_pattern_precedence.2.2.2.2.2.1 (fun _ => some patSentinel)
     [{ name := "F", pattern := "X(.)" }] [("F", some patSentinel)]
     { name := "F", pattern := "X(.)" } (by decide) (by simp) (by decide) rfl⟩

/-- C4: a rule whose non-empty pattern fails to compile makes the whole
run stop with a single setup-error event, before any page: nothing is
written and no other event is emitted. -/
theorem C4_fatal_setup (H : Heuristics) (compile : String → Option CompiledPat)
    (doc : List String) (cancel : Nat → Bool) (cfg : RunConfig)
    (h : ∃ fr ∈ cfg.fields, fr.pattern ≠ "" ∧ compile fr.pattern = none) :
    (runWorker H compile doc cancel cfg).written = none ∧
    ∃ nm, (runWorker H compile doc cancel cfg).trace =
      [.errorE ("Regex inválida para " ++ nm)] := by
  obtain ⟨nm, hnm⟩ := compileFields_error h
  exact ⟨by simp [runWorker, hnm], nm, by simp [runWorker, hnm]⟩

/-- C4 witness: a one-rule list with an unparseable pattern yields zero
written rows and only the setup-error event. -/
theorem C4_fatal_setup_witness :
    (runWorker templateHeuristics (fun _ => none) ["pg"] (fun _ => false) cfgBad).written =
      none ∧
    ∃ nm, (runWorker templateHeuristics (fun _ => none) ["pg"] (fun _ => false) cfgBad).trace =
      [.errorE ("Regex inválida para " ++ nm)] :=
  C4_fatal_setup templateHeuristics (fun _ => none) ["pg"] (fun _ => false) cfgBad
    ⟨{ name := "F", pattern := "(" }, by simp [cfgBad], by decide, rfl⟩

/-- C5: when the cancellation flag is observed set before some page of
the run, the run ends with the cancelled error as its last event and no
rows are written — whatever was accumulated is discarded. -/
theorem C5_cancellation (H : Heuristics) (compile : String → Option CompiledPat)
    (doc : List String) (cancel : Nat → Bool) (cfg : RunConfig)
    (cpl : List (String × Option CompiledPat))
    (hc : compileFields compile cfg.fields = .ok cpl)
    (h : ∃ k ∈ rangeList 0 (totalPagesOf doc cfg.maxPages), cancel k = true) :
    (runWorker H compile doc cancel cfg).written = none ∧
    (runWorker H compile doc cancel cfg).trace.getLast? = some (.errorE cancelMsg) := by
  obtain ⟨evs2, heq, hlast⟩ :=
    @pageLoop_cancelled H cpl cfg.fields cfg.useTemplateHeuristics cfg.includePdfPage doc
      cancel (totalPagesOf doc cfg.maxPages)
      (rangeList 0 (totalPagesOf doc cfg.maxPages)) [] 0 0 [] h
  constructor
  · simp [runWorker, hc, heq]
  · simp [runWorker, hc, heq, hlast]

/-- C5 witness: cancelling at page 2 of a 10-page run writes nothing
and ends in the cancelled error. -/
theorem C5_cancellation_witness :
    (runWorker templateHeuristics (fun _ => none) (List.replicate 10 "pg")
        (fun i => i = 2) cfg2000).written = none ∧
    (runWorker templateHeuristics (fun _ => none) (List.replicate 10 "pg")
        (fun i => i = 2) cfg2000).trace.getLast? = some (.errorE cancelMsg) :=
  C5_cancellation templateHeuristics (fun _ => none) (List.replicate 10 "pg")
    (fun i => i = 2) cfg2000 [] rfl (by decide)

/-- C6: with a positive page cap and no cancellation, the run processes
exactly pages `0 .. total_pages - 1` in order where
`total_pages = min(page_count, max_pages)`, writing exactly one row per
processed page. -/
theorem C6_page_cap (H : Heuristics) (compile : String → Option CompiledPat)
    (doc : List String) (cancel : Nat → Bool) (cfg : RunConfig)
    (cpl : List (String × Option CompiledPat))
    (hm : 0 < cfg.maxPages)
    (hc : compileFields compile cfg.fields = .ok cpl)
    (hnc : ∀ k ∈ rangeList 0 (totalPagesOf doc cfg.maxPages), cancel k = false) :
    totalPagesOf doc cfg.maxPages = min doc.length cfg.maxPages.toNat ∧
    ∃ rows, (runWorker H compile doc cancel cfg).written = some rows ∧
      rows = (rangeList 0 (totalPagesOf doc cfg.maxPages)).map
        (fun i => pageRow H cpl cfg.fields cfg.useTemplateHeuristics cfg.includePdfPage i
          (doc.getD i "")) ∧
      rows.length = totalPagesOf doc cfg.maxPages := by
  refine ⟨by rw [totalPagesOf, if_pos hm], ?_⟩
  obtain ⟨tl2, le2, evs2, heq⟩ :=
    @pageLoop_no_cancel H cpl cfg.fields cfg.useTemplateHeuristics cfg.includePdfPage doc
      cancel (totalPagesOf doc cfg.maxPages)
      (rangeList 0 (totalPagesOf doc cfg.maxPages)) [] 0 0 [] hnc
  refine ⟨_, by simp [runWorker, hc, heq], rfl, ?_⟩
  simp [rangeList, List.length_range']

/-- C6 witness: a 50-page document with `max_pages = 10` yields exactly
the ten rows of pages 0–9. -/
theorem C6_page_cap_witness :
    totalPagesOf (List.replicate 50 "pg") cfg10.maxPages =
      min (List.replicate 50 "pg").length cfg10.maxPages.toNat ∧
    ∃ rows, (runWorker templateHeuristics (fun _ => none) (List.replicate 50 "pg")
        (fun _ => false) cfg10).written = some rows ∧
      rows = (rangeList 0 (totalPagesOf (List.replicate 50 "pg") cfg10.maxPages)).map
        (fun i => pageRow templateHeuristics [] cfg10.fields cfg10.useTemplateHeuristics
          cfg10.includePdfPage i ((List.replicate 50 "pg").getD i "")) ∧
      rows.length = totalPagesOf (List.replicate 50 "pg") cfg10.maxPages :=
  C6_page_cap templateHeuristics (fun _ => none) (List.replicate 50 "pg") (fun _ => false)
    cfg10 [] (by decide) rfl (by decide)

/-- C7: the date extractor.  (i) When the labelled `DÍA MES AÑO` pattern
matches, the result is its three groups as `YYYY-MM-DD`.  (ii) With no
label and no bare triple at all, the result is `""`.  (iii) The spec's
label example.  (iv) The footer-avoidance example: the `dd mm yyyy`
triple 60 characters past the `Impreso el` date is returned instead of
the footer date. -/
theorem C7_date_extractor :
    (∀ (text : String) (d mth y : String), findLabelFrom text.data = some (d, mth, y) →
       h_find_fecha text = y ++ "-" ++ mth ++ "-" ++ d) ∧
    (∀ text : String, findLabelFrom text.data = none → findTripleFrom text.data 0 = none →
       h_find_fecha text = "") ∧
    h_find_fecha "DÍA MES AÑO 15 08 2023" = "2023-08-15" ∧
    h_find_fecha c7footer = "2024-03-20" := by
  refine ⟨?_, ?_, by decide, by decide⟩
  · intro text d mth y h
    simp only [h_find_fecha, h]
  · intro text h1 h2
    simp only [h_find_fecha, h1, fechaLoop, h2]

/-- C7 witness: both general conjuncts at concrete inputs. -/
theorem C7_date_extractor_witness :
    h_find_fecha "DÍA MES AÑO 15 08 2023" = "2023" ++ "-" ++ "08" ++ "-" ++ "15" ∧
    h_find_fecha "sin fechas aqui" = "" :=
  ⟨C7_date_extractor.1 "DÍA MES AÑO 15 08 2023" "15" "08" "2023" (by decide),
   C7_date_extractor.2.1 "sin fechas aqui" (by decide) (by decide)⟩

/-- C8 counterexample: in `c8text` the name `"PEREZ GOMEZ JUAN"` is the
first non-empty line after the label (so it lies within the next 7
non-empty lines), passes the name predicate, and the block starts at
line 0 with the label at line 1 — yet the extractor returns
`("", "")`: strategy A's window counts raw lines, empty ones included,
and the 7 empty lines exhaust it. -/
theorem C8_window_counterexample :
    h_find_nombre_y_doc c8text = ("", "") ∧
    findStartIdx (linesOf c8text) = some 0 ∧
    containsSub "APELLIDOS Y NOMBRES"
      (toUpperPy ((blockOf (linesOf c8text) 0).getD 1 "")) = true ∧
    ((blockOf (linesOf c8text) 0).drop 2).filter (fun l => l ≠ "") =
      ["PEREZ GOMEZ JUAN"] ∧
    looks_like_upper_name "PEREZ GOMEZ JUAN" = true := by decide

/-- C8 amended: strategy A scans up to the next 7 **raw** lines after
the label line (empty lines consume window slots), takes the first
non-empty one passing the name predicate, title-cases it and attaches
the nearby document; when strategy A succeeds it decides the
extractor's whole answer. -/
theorem C8_labeled_window :
    (∀ (block : List String) (i k : Nat),
       i < block.length →
       containsSub "APELLIDOS Y NOMBRES" (toUpperPy (block.getD i "")) = true →
       (∀ i2 ∈ rangeList 0 i,
          containsSub "APELLIDOS Y NOMBRES" (toUpperPy (block.getD i2 "")) = false) →
       i < k → k < min (i + 8) block.length →
       pyStrip (block.getD k "") ≠ "" →
       looks_like_upper_name (pyStrip (block.getD k "")) = true →
       (∀ k2 ∈ rangeList (i + 1) k,
          ¬(pyStrip (block.getD k2 "") ≠ "" ∧
            looks_like_upper_name (pyStrip (block.getD k2 "")) = true)) →
       strategyA block =
         some (titlecase (pyStrip (block.getD k "")), find_doc_near block k)) ∧
    (∀ (ls : List String) (s : Nat) (r : String × String),
       findStartIdx ls = some s → strategyA (blockOf ls s) = some r →
       hFindLines ls = r) := by
  constructor
  · intro block i k hi hlab hfirst hik hk hcne hclook hkfirst
    rw [strategyA]
    have hr : rangeList 0 block.length = List.range' 0 block.length := by
      rw [rangeList, Nat.sub_zero]
    rw [hr]
    refine scanList_range'_first block.length 0 i (Nat.zero_le i) (by omega) ?_ ?_
    · intro x _ hx
      have hlx := hfirst x (by
        rw [rangeList]
        exact List.mem_range'_1.mpr ⟨by omega, by omega⟩)
      have hlx2 : containsSub "APELLIDOS Y NOMBRES" (toUpperPy (block[x]?.getD "")) = false := by
        rw [← List.getD_eq_getElem?_getD]
        exact hlx
      rw [if_neg (by simp [hlx2])]
    · rw [if_pos hlab]
      have hr2 : rangeList (i + 1) (min (i + 8) block.length) =
          List.range' (i + 1) (min (i + 8) block.length - (i + 1)) := by
        rw [rangeList]
      rw [hr2]
      refine scanList_range'_first (min (i + 8) block.length - (i + 1)) (i + 1) k
        (by omega) (by omega) ?_ ?_
      · intro x hx1 hx2
        have hkx := hkfirst x (by
          rw [rangeList]
          exact List.mem_range'_1.mpr ⟨by omega, by omega⟩)
        rw [if_neg hkx]
      · rw [if_pos ⟨hcne, hclook⟩]
  · intro ls s r hs hA
    exact hFindLines_of_strategyA hs hA

/-- C8 amended witness: with the label at line 0, an empty line 1 and
the name at line 2, strategy A returns it; and the strategy-A result
decides the extractor on a concrete page. -/
theorem C8_labeled_window_witness :
    strategyA ["APELLIDOS Y NOMBRES", "", "PEREZ GOMEZ JUAN"] =
      some (titlecase (pyStrip (["APELLIDOS Y NOMBRES", "", "PEREZ GOMEZ JUAN"].getD 2 "")),
        find_doc_near ["APELLIDOS Y NOMBRES", "", "PEREZ GOMEZ JUAN"] 2) :=
  C8_labeled_window.1 ["APELLIDOS Y NOMBRES", "", "PEREZ GOMEZ JUAN"] 0 2
    (by decide) (by decide) (by decide) (by decide) (by decide) (by decide) (by decide)
    (by decide)

/-- C9 counterexample: over the whole run the percentage 100 is emitted
twice even though it only changed once — the page loop emits it at the
last page and the completion notification emits it again — refuting
"each percentage value is emitted at most once" for the entire run. -/
theorem C9_progress_counterexample :
    (progressPcts (runWorker templateHeuristics (fun _ => none) ["hola"] (fun _ => false)
      cfg2000).trace).count 100 = 2 := by decide

/-- C9 amended: during the page loop a progress notification is
emitted exactly when the integer percentage changes, so the loop's
emitted percentages are strictly increasing and pairwise distinct; the
end-of-run warning and the completion notification are additional
events at percentage 100 outside that guarantee (every completed run
ends with a 100% completion notification). -/
theorem C9_progress_amended :
    (∀ (H : Heuristics) (compiled : List (String × Option CompiledPat))
       (fields : List FieldRule) (useH includePage : Bool) (doc : List String)
       (cancel : Nat → Bool) (totalPages : Nat)
       (rows2 : List (List (String × String))) (tl2 le2 : Nat) (evs2 : List Event),
       pageLoop H compiled fields useH includePage doc cancel totalPages
         (rangeList 0 totalPages) [] 0 0 [] = .ok (rows2, tl2, le2, evs2) →
       (progressPcts evs2).Pairwise (· < ·) ∧ (progressPcts evs2).Nodup) ∧
    (∀ (H : Heuristics) (compile : String → Option CompiledPat) (doc : List String)
       (cancel : Nat → Bool) (cfg : RunConfig),
       (runWorker H compile doc cancel cfg).written ≠ none →
       ∃ m, (runWorker H compile doc cancel cfg).trace.getLast? =
         some (.progress 100 m)) := by
  constructor
  · intro H compiled fields useH includePage doc cancel totalPages rows2 tl2 le2 evs2 heq
    have hsorted : (rangeList 0 totalPages).Pairwise (· ≤ ·) := by
      rw [rangeList]
      exact (List.pairwise_lt_range' 0 (totalPages - 0)).imp Nat.le_of_lt
    have hpair := pageLoop_pcts (rangeList 0 totalPages) [] rows2 0 0 tl2 le2 [] evs2
      (by simp [progressPcts]) (by simp [progressPcts])
      (fun idx _ => Nat.zero_le _) hsorted heq
    exact ⟨hpair, hpair.imp Nat.ne_of_lt⟩
  · intro H compile doc cancel cfg h
    cases hc : compileFields compile cfg.fields with
    | error nm => simp [runWorker, hc] at h
    | ok cpl =>
      cases hl : pageLoop H cpl cfg.fields cfg.useTemplateHeuristics cfg.includePdfPage doc
          cancel (totalPagesOf doc cfg.maxPages)
          (rangeList 0 (totalPagesOf doc cfg.maxPages)) [] 0 0 [] with
      | error evs => simp [runWorker, hc, hl] at h
      | ok x =>
        obtain ⟨rows, tl, le, evs⟩ := x
        refine ⟨"Completado. Filas: " ++ toString rows.length, ?_⟩
        simp only [runWorker, hc, hl]
        exact getLast?_append_pair _ _ _

/-- C9 amended witness: the loop percentages of a clean 2-page run are
strictly increasing and distinct. -/
theorem C9_progress_amended_witness :
    (progressPcts [Event.progress 50 "Procesando página 1/2",
      Event.progress 100 "Procesando página 2/2"]).Pairwise (· < ·) ∧
    (progressPcts [Event.progress 50 "Procesando página 1/2",
      Event.progress 100 "Procesando página 2/2"]).Nodup :=
  C9_progress_amended.1 templateHeuristics [] [] true false ["a", "b"] (fun _ => false) 2
    [[], []] 0 100
    [Event.progress 50 "Procesando página 1/2", Event.progress 100 "Procesando página 2/2"]
    (by rfl)

/-- C10: the fallback of the date extractor performs no calendar
validation: any two 2-digit groups followed by a 4-digit group,
whitespace-separated, are returned verbatim as `yyyy-mm-dd`, whatever
digits they hold; in particular `"99 99 2023"` gives `"2023-99-99"`. -/
theorem C10_no_calendar_validation :
    (∀ a1 a2 b1 b2 y1 y2 y3 y4 : Char,
       isDigitC a1 = true → isDigitC a2 = true → isDigitC b1 = true → isDigitC b2 = true →
       isDigitC y1 = true → isDigitC y2 = true → isDigitC y3 = true → isDigitC y4 = true →
       h_find_fecha (String.mk [a1, a2, ' ', b1, b2, ' ', y1, y2, y3, y4]) =
         String.mk [y1, y2, y3, y4] ++ "-" ++ String.mk [b1, b2] ++ "-" ++
           String.mk [a1, a2]) ∧
    h_find_fecha "99 99 2023" = "2023-99-99" := by
  refine ⟨?_, by decide⟩
  intro a1 a2 b1 b2 y1 y2 y3 y4 ha1 ha2 hb1 hb2 hy1 hy2 hy3 hy4
  have hlabel : findLabelFrom [a1, a2, ' ', b1, b2, ' ', y1, y2, y3, y4] = none := by
    refine findLabelFrom_none ?_
    intro c hc
    simp only [List.mem_cons, List.not_mem_nil, or_false] at hc
    rcases hc with rfl | rfl | rfl | rfl | rfl | rfl | rfl | rfl | rfl | rfl
    · exact isDigitC_ne ha1
    · exact isDigitC_ne ha2
    · decide
    · exact isDigitC_ne hb1
    · exact isDigitC_ne hb2
    · decide
    · exact isDigitC_ne hy1
    · exact isDigitC_ne hy2
    · exact isDigitC_ne hy3
    · exact isDigitC_ne hy4
  have hws : isSpacePy ' ' = true := by decide
  have ht : matchTripleAt [a1, a2, ' ', b1, b2, ' ', y1, y2, y3, y4] =
      some ((String.mk [a1, a2], String.mk [b1, b2], String.mk [y1, y2, y3, y4]), 10) := by
    rw [matchTripleAt]
    simp [eatDigits, eatWs1, ha1, ha2, hb1, hb2, hy1, hy2, hy3, hy4, hws,
      isDigitC_not_space hb1, isDigitC_not_space hy1, List.takeWhile]
  have hfind : findTripleFrom [a1, a2, ' ', b1, b2, ' ', y1, y2, y3, y4] 0 =
      some (0, (String.mk [a1, a2], String.mk [b1, b2], String.mk [y1, y2, y3, y4]), 10) := by
    rw [findTripleFrom, ht]
  have hpre : containsSub "Impreso el" (String.mk []) = false := by decide
  show (match findLabelFrom [a1, a2, ' ', b1, b2, ' ', y1, y2, y3, y4] with
    | some (d, mth, y) => y ++ "-" ++ mth ++ "-" ++ d
    | none => fechaLoop [a1, a2, ' ', b1, b2, ' ', y1, y2, y3, y4] 11
        [a1, a2, ' ', b1, b2, ' ', y1, y2, y3, y4] 0) = _
  rw [hlabel]
  show fechaLoop [a1, a2, ' ', b1, b2, ' ', y1, y2, y3, y4] (10 + 1)
      [a1, a2, ' ', b1, b2, ' ', y1, y2, y3, y4] 0 = _
  rw [fechaLoop, hfind]
  simp [hpre]

/-- C10 witness: the general conjunct applied at the digits of
`99 99 2023`. -/
theorem C10_no_calendar_validation_witness :
    h_find_fecha (String.mk ['9', '9', ' ', '9', '9', ' ', '2', '0', '2', '3']) =
      String.mk ['2', '0', '2', '3'] ++ "-" ++ String.mk ['9', '9'] ++ "-" ++
        String.mk ['9', '9'] :=
  C10_no_calendar_validation.1 '9' '9' '9' '9' '2' '0' '2' '3'
    (by decide) (by decide) (by decide) (by decide)
    (by decide) (by decide) (by decide) (by decide)

end PdfExtract
